import Mathlib

/-!
Verification of the bus-mapping calldatacopy opcode handler
(`src/bus-mapping/src/evm/opcodes/calldatacopy.rs`).

The handler's own file is embedded faithfully below
(`gen_calldatacopy_step`, `copyStepIter` / `copyStepsLoop` for the per-byte
loop of `gen_copy_steps`, `gen_copy_steps`, `gen_copy_event`,
`reconstructMemory` and `Calldatacopy.gen_associated_ops`).  The
execution-state tracker primitives it calls (`CircuitInputStateRef`:
`push_op`, `stack_read`, `call_context_read`, `memory_write`, `new_step`,
`push_copy`, and the memory model's `extend_at_least`) live outside the
sources at hand, so they are modelled from the specification text; each such
definition carries a doc comment saying so.

Machine integers (`u64`, `usize`, `u8`) are modelled as `Nat`: none of the
verified properties depend on wrap-around, and the Rust code would panic
(not wrap) on overflow in the builds the repository tests.  Fallible code
(indexing that can panic, `Result`) is modelled with `Option`.
-/

namespace BusMapping

/-- Read/write direction of a recorded operation. -/
inductive RW where
  | Read
  | Write
deriving DecidableEq, Repr

/-- Domain tag attached to every copy-relevant address. -/
inductive CopyDataType where
  | Memory
  | Bytecode
  | TxCalldata
  | TxLog
deriving DecidableEq, Repr

/-- Call-context fields readable through the tracker. -/
inductive CallContextField where
  | TxId
  | CallerId
  | CallDataLength
  | CallDataOffset
deriving DecidableEq, Repr

/-- Identifier of a copy source or destination. -/
inductive NumberOrHash where
  | Number (n : Nat)
  | Hash (h : Nat)
deriving DecidableEq, Repr

/-- One read-or-write step of a copy event. -/
structure CopyStep where
  addr : Nat
  tag : CopyDataType
  rw : RW
  value : Nat
  is_code : Option Bool
  is_pad : Bool
  rwc : Nat
  rwc_inc_left : Nat
deriving DecidableEq, Repr

/-- The structured record of one bulk-copy instruction's effect. -/
structure CopyEvent where
  src_type : CopyDataType
  src_id : NumberOrHash
  src_addr : Nat
  src_addr_end : Nat
  dst_type : CopyDataType
  dst_id : NumberOrHash
  dst_addr : Nat
  log_id : Option Nat
  length : Nat
  steps : List CopyStep
  tx_id : Nat
  call_id : Nat
  pc : Nat
deriving DecidableEq, Repr

/-- A recorded stack operation. -/
structure StackOp where
  call_id : Nat
  address : Nat
  value : Nat
deriving DecidableEq, Repr

/-- A recorded memory operation (one byte). -/
structure MemoryOp where
  call_id : Nat
  address : Nat
  byte : Nat
deriving DecidableEq, Repr

/-- A recorded call-context operation. -/
structure CallContextOp where
  call_id : Nat
  field : CallContextField
  value : Nat
deriving DecidableEq, Repr

/-- The payload of a recorded operation, tagged by kind. -/
inductive OpData where
  | stack (op : StackOp)
  | memory (op : MemoryOp)
  | callContext (op : CallContextOp)
deriving DecidableEq, Repr

/-- An entry of the operation log: row counter, direction and payload. -/
structure RecordedOp where
  rwc : Nat
  rw : RW
  data : OpData
deriving DecidableEq, Repr

/-- Direction and payload of a recorded operation, with the row counter
projected away. -/
def projOp (o : RecordedOp) : RW × OpData := (o.rw, o.data)

/-- One synthesized record per EVM instruction: program counter, the row
counter at which the instruction started, and the ordered list of the
operations it performed. -/
structure ExecStep where
  pc : Nat
  rwc : Nat
  bus_mapping_instance : List RecordedOp
deriving DecidableEq, Repr

/-- Metadata of the current call frame. -/
structure Call where
  call_id : Nat
  caller_id : Nat
  is_root : Bool
  call_data_offset : Nat
  call_data_length : Nat
deriving DecidableEq, Repr

/-- Mutable per-call context: the frame's memory and its call data. -/
structure CallContext where
  memory : List Nat
  call_data : List Nat
deriving DecidableEq, Repr

/-- One raw trace record: program counter and the stack, top first. -/
structure GethExecStep where
  pc : Nat
  stack : List Nat
deriving DecidableEq, Repr

/-- The i-th stack element counted from the top (`Stack::nth_last`);
`none` models the stack-underflow error. -/
def GethExecStep.nth_last (g : GethExecStep) (i : Nat) : Option Nat :=
  g.stack[i]?

/-- The absolute stack address of the i-th element from the top
(`Stack::nth_last_filled`, with a 1024-slot stack). -/
def GethExecStep.nth_last_filled (g : GethExecStep) (i : Nat) : Nat :=
  1024 - g.stack.length + i

/-- The execution-state tracker (`CircuitInputStateRef`): row counter,
transaction id, current call, current call context, the block operation log
and the block copy-event list. -/
structure State where
  rwc : Nat
  tx_id : Nat
  call : Call
  call_ctx : CallContext
  ops : List RecordedOp
  copy_events : List CopyEvent
deriving DecidableEq, Repr

/-- Modelled from the spec: `push_op` of `CircuitInputStateRef` (code not
under the sources at hand) draws the next row-counter value and appends the
operation both to the operation log and to the given ExecStep's reference
list, in call order. -/
def push_op (s : State) (step : ExecStep) (rw : RW) (data : OpData) :
    State × ExecStep :=
  let r : RecordedOp := ⟨s.rwc, rw, data⟩
  ({ s with rwc := s.rwc + 1, ops := s.ops ++ [r] },
   { step with bus_mapping_instance := step.bus_mapping_instance ++ [r] })

/-- Modelled from the spec: `stack_read` records a Read of the given stack
slot of the current call. -/
def stack_read (s : State) (step : ExecStep) (address value : Nat) :
    State × ExecStep :=
  push_op s step RW.Read (OpData.stack ⟨s.call.call_id, address, value⟩)

/-- Modelled from the spec: `call_context_read` records a Read of a
call-context field. -/
def call_context_read (s : State) (step : ExecStep) (call_id : Nat)
    (f : CallContextField) (value : Nat) : State × ExecStep :=
  push_op s step RW.Read (OpData.callContext ⟨call_id, f, value⟩)

/-- Modelled from the spec: the memory model's `extend_at_least` grows the
buffer to the requested length, zero-filling the new suffix, and never
shrinks. -/
def extend_at_least (mem : List Nat) (n : Nat) : List Nat :=
  if mem.length < n then mem ++ List.replicate (n - mem.length) 0 else mem

/-- Modelled from the spec: `memory_write` extends the current frame's
memory to cover the address (zero-filling), writes the byte there, and
records a Write operation against the current call. -/
def memory_write (s : State) (step : ExecStep) (address byte : Nat) :
    State × ExecStep :=
  let mem := (extend_at_least s.call_ctx.memory (address + 1)).set address byte
  let s1 : State := { s with call_ctx := { s.call_ctx with memory := mem } }
  push_op s1 step RW.Write (OpData.memory ⟨s.call.call_id, address, byte⟩)

/-- Modelled from the spec: `new_step` synthesizes a fresh ExecStep
snapshotting the program counter and the current row counter; it consumes
no row-counter value. -/
def new_step (s : State) (g : GethExecStep) : ExecStep :=
  ⟨g.pc, s.rwc, []⟩

/-- Modelled from the spec: `push_copy` appends the copy event to the
block's copy-event list. -/
def push_copy (s : State) (ev : CopyEvent) : State :=
  { s with copy_events := s.copy_events ++ [ev] }

/-- Embedding of `gen_calldatacopy_step` (calldatacopy.rs lines 50-106):
three stack reads followed by the call-context reads, branching on
`is_root`. -/
def gen_calldatacopy_step (s : State) (g : GethExecStep) :
    Option (State × ExecStep) := do
  let exec_step := new_step s g
  let memory_offset ← g.nth_last 0
  let data_offset ← g.nth_last 1
  let length ← g.nth_last 2
  let p1 := stack_read s exec_step (g.nth_last_filled 0) memory_offset
  let p2 := stack_read p1.1 p1.2 (g.nth_last_filled 1) data_offset
  let p3 := stack_read p2.1 p2.2 (g.nth_last_filled 2) length
  if p3.1.call.is_root then
    let q1 := call_context_read p3.1 p3.2 p3.1.call.call_id
      CallContextField.TxId p3.1.tx_id
    let q2 := call_context_read q1.1 q1.2 q1.1.call.call_id
      CallContextField.CallDataLength q1.1.call.call_data_length
    some q2
  else
    let q1 := call_context_read p3.1 p3.2 p3.1.call.call_id
      CallContextField.CallerId p3.1.call.caller_id
    let q2 := call_context_read q1.1 q1.2 q1.1.call.call_id
      CallContextField.CallDataLength q1.1.call.call_data_length
    let q3 := call_context_read q2.1 q2.2 q2.1.call.call_id
      CallContextField.CallDataOffset q2.1.call.call_data_offset
    some q3

/-- Embedding of one iteration of the `for idx in 0..bytes_left` loop of
`gen_copy_steps` (calldatacopy.rs lines 118-165): produces the Read and
Write CopySteps for byte `idx` and performs the operations of that
iteration.  `none` models the panic of the out-of-range call-data index. -/
def copyStepIter (sa da se : Nat) (r : Bool) (s : State) (step : ExecStep)
    (idx : Nat) : Option (State × ExecStep × CopyStep × CopyStep) :=
  let addr := sa + idx
  let rwc := s.rwc
  let tag := if r then CopyDataType.TxCalldata else CopyDataType.Memory
  if addr < se then
    match s.call_ctx.call_data[addr - s.call.call_data_offset]? with
    | none => none
    | some byte =>
      let p1 := if r then (s, step)
        else push_op s step RW.Read
          (OpData.memory ⟨s.call.caller_id, addr, byte⟩)
      let rs : CopyStep := ⟨addr, tag, RW.Read, byte, none, false, rwc, 0⟩
      let ws : CopyStep :=
        ⟨da + idx, CopyDataType.Memory, RW.Write, byte, none, false, p1.1.rwc, 0⟩
      let p2 := memory_write p1.1 p1.2 (da + idx) byte
      some (p2.1, p2.2, rs, ws)
  else
    let rs : CopyStep := ⟨addr, tag, RW.Read, 0, none, true, rwc, 0⟩
    let ws : CopyStep :=
      ⟨da + idx, CopyDataType.Memory, RW.Write, 0, none, false, s.rwc, 0⟩
    let p2 := memory_write s step (da + idx) 0
    some (p2.1, p2.2, rs, ws)

/-- Embedding of the whole loop of `gen_copy_steps` (calldatacopy.rs lines
117-165), collecting the CopySteps of bytes `idx, idx+1, ...` while
threading the tracker state. -/
def copyStepsLoop (sa da se : Nat) (r : Bool) :
    State → ExecStep → Nat → Nat → Option (State × ExecStep × List CopyStep)
  | s, step, _, 0 => some (s, step, [])
  | s, step, idx, n + 1 =>
    match copyStepIter sa da se r s step idx with
    | none => none
    | some (s1, step1, rs, ws) =>
      match copyStepsLoop sa da se r s1 step1 (idx + 1) n with
      | none => none
      | some (s2, step2, rest) => some (s2, step2, rs :: ws :: rest)

/-- Embedding of `gen_copy_steps` (calldatacopy.rs lines 108-172): the
per-byte loop followed by the `rwc_inc_left` backfill, which sets every
step's remaining increments to the final row counter minus the step's own
row counter. -/
def gen_copy_steps (s : State) (step : ExecStep)
    (src_addr dst_addr src_addr_end bytes_left : Nat) (is_root : Bool) :
    Option (State × ExecStep × List CopyStep) :=
  match copyStepsLoop src_addr dst_addr src_addr_end is_root s step 0 bytes_left with
  | none => none
  | some (s1, step1, steps) =>
    some (s1, step1, steps.map fun cs => { cs with rwc_inc_left := s1.rwc - cs.rwc })

/-- Embedding of `gen_copy_event` (calldatacopy.rs lines 174-221). -/
def gen_copy_event (s : State) (g : GethExecStep) :
    Option (State × CopyEvent) := do
  let memory_offset ← g.nth_last 0
  let data_offset ← g.nth_last 1
  let length ← g.nth_last 2
  let call_data_offset := s.call.call_data_offset
  let call_data_length := s.call.call_data_length
  let src_addr := call_data_offset + data_offset
  let src_addr_end := call_data_offset + call_data_length
  let exec_step := new_step s g
  match gen_copy_steps s exec_step src_addr memory_offset src_addr_end length
      s.call.is_root with
  | none => none
  | some (s1, exec_step1, copy_steps) =>
    let src_pair := if s1.call.is_root then (CopyDataType.TxCalldata, s1.tx_id)
      else (CopyDataType.Memory, s1.call.caller_id)
    some (s1,
      { src_type := src_pair.1
        src_id := NumberOrHash.Number src_pair.2
        src_addr := src_addr
        src_addr_end := src_addr_end
        dst_type := CopyDataType.Memory
        dst_id := NumberOrHash.Number s1.call.call_id
        dst_addr := memory_offset
        log_id := none
        length := length
        steps := copy_steps
        tx_id := s1.tx_id
        call_id := s1.call.call_id
        pc := exec_step1.pc })

/-- Writes the given bytes into the buffer starting at `start`
(`copy_from_slice` on the already-extended buffer). -/
def writeRange : List Nat → Nat → List Nat → List Nat
  | mem, _, [] => mem
  | mem, start, b :: bs => writeRange (mem.set start b) (start + 1) bs

/-- Embedding of the memory-reconstruction pass of
`Calldatacopy::gen_associated_ops` (calldatacopy.rs lines 25-42). -/
def reconstructMemory (memory call_data : List Nat)
    (memory_offset data_offset length : Nat) : List Nat :=
  if length ≠ 0 then
    let minimal_length := memory_offset + length
    let mem := extend_at_least memory minimal_length
    let data_ends := data_offset + length
    if data_ends ≤ call_data.length then
      writeRange mem memory_offset ((call_data.drop data_offset).take length)
    else if data_offset ≤ call_data.length then
      writeRange mem memory_offset (call_data.drop data_offset)
    else mem
  else memory

/-- Embedding of `Calldatacopy::gen_associated_ops` (calldatacopy.rs lines
12-47): the bus-mapping step, the memory reconstruction, the copy event and
its push onto the block. -/
def Calldatacopy.gen_associated_ops (s : State) (geth_steps : List GethExecStep) :
    Option (State × List ExecStep) := do
  let geth_step ← geth_steps.head?
  let (s1, es) ← gen_calldatacopy_step s geth_step
  let memory_offset ← geth_step.nth_last 0
  let data_offset ← geth_step.nth_last 1
  let length ← geth_step.nth_last 2
  let s2 : State := { s1 with call_ctx := { s1.call_ctx with
    memory := reconstructMemory s1.call_ctx.memory s1.call_ctx.call_data
      memory_offset data_offset length } }
  match gen_copy_event s2 geth_step with
  | none => none
  | some (s3, copy_event) => some (push_copy s3 copy_event, [es])

/-- The value the copy loop produces for source address `addr`: the
call-data byte when the address is in range, zero when padded. -/
def padValue (cd : List Nat) (cdo se addr : Nat) : Nat :=
  if addr < se then cd.getD (addr - cdo) 0 else 0

/-- Direction-and-payload trace of the operations the copy loop records for
bytes `idx, ..., idx+n-1`: a caller-frame memory Read for each non-padded
byte of a non-root call, and a current-frame memory Write for every byte. -/
def loopOpsSpec (cd : List Nat) (cdo caller callId sa da se : Nat) (r : Bool) :
    Nat → Nat → List (RW × OpData)
  | _, 0 => []
  | idx, n + 1 =>
    (if sa + idx < se ∧ r = false
      then [(RW.Read, OpData.memory ⟨caller, sa + idx, padValue cd cdo se (sa + idx)⟩)]
      else []) ++
    [(RW.Write, OpData.memory ⟨callId, da + idx, padValue cd cdo se (sa + idx)⟩)] ++
    loopOpsSpec cd cdo caller callId sa da se r (idx + 1) n

/-- Direction-and-payload trace of the operations `gen_calldatacopy_step`
records: the three stack reads followed by the root- or non-root set of
call-context reads. -/
def stackCcSpec (s : State) (g : GethExecStep) (mo dataOffset len : Nat) :
    List (RW × OpData) :=
  [(RW.Read, OpData.stack ⟨s.call.call_id, g.nth_last_filled 0, mo⟩),
   (RW.Read, OpData.stack ⟨s.call.call_id, g.nth_last_filled 1, dataOffset⟩),
   (RW.Read, OpData.stack ⟨s.call.call_id, g.nth_last_filled 2, len⟩)] ++
  (if s.call.is_root then
    [(RW.Read, OpData.callContext ⟨s.call.call_id, CallContextField.TxId, s.tx_id⟩),
     (RW.Read, OpData.callContext
       ⟨s.call.call_id, CallContextField.CallDataLength, s.call.call_data_length⟩)]
   else
    [(RW.Read, OpData.callContext
       ⟨s.call.call_id, CallContextField.CallerId, s.call.caller_id⟩),
     (RW.Read, OpData.callContext
       ⟨s.call.call_id, CallContextField.CallDataLength, s.call.call_data_length⟩),
     (RW.Read, OpData.callContext
       ⟨s.call.call_id, CallContextField.CallDataOffset, s.call.call_data_offset⟩)])

/-- Tests whether a logged entry is a call-context operation. -/
def isCallContextEntry (p : RW × OpData) : Bool :=
  match p.2 with
  | OpData.callContext _ => true
  | _ => false

/-- Tests whether a logged entry is a memory Read operation. -/
def isMemoryReadEntry (p : RW × OpData) : Bool :=
  match p with
  | (RW.Read, OpData.memory _) => true
  | _ => false

/-- Tests whether a logged entry is a memory operation of either
direction. -/
def isMemoryEntry (p : RW × OpData) : Bool :=
  match p.2 with
  | OpData.memory _ => true
  | _ => false

/-- A concrete root-call tracker state: transaction call data `[7, 9]`. -/
def exampleRootState : State :=
  { rwc := 50, tx_id := 1,
    call := { call_id := 1, caller_id := 0, is_root := true,
              call_data_offset := 0, call_data_length := 2 },
    call_ctx := { memory := [], call_data := [7, 9] },
    ops := [], copy_events := [] }

/-- A concrete CALLDATACOPY trace step for the root state: stack (top
first) holds memory_offset 0, data_offset 0, length 1. -/
def exampleRootGeth : GethExecStep := ⟨3, [0, 0, 1]⟩

/-- A concrete non-root-call tracker state: call data window of 4 bytes at
caller offset 16, bytes `[11, 22, 33, 44]`. -/
def exampleInnerState : State :=
  { rwc := 100, tx_id := 1,
    call := { call_id := 2, caller_id := 1, is_root := false,
              call_data_offset := 16, call_data_length := 4 },
    call_ctx := { memory := [], call_data := [11, 22, 33, 44] },
    ops := [], copy_events := [] }

/-- A concrete CALLDATACOPY trace step for the inner state: memory_offset
0, data_offset 2, length 4 (the last two source bytes are padded). -/
def exampleInnerGeth : GethExecStep := ⟨7, [0, 2, 4]⟩

/-- Placeholder copy event used only to extract components of concrete
runs. -/
def defaultCopyEvent : CopyEvent :=
  ⟨CopyDataType.Memory, NumberOrHash.Number 0, 0, 0, CopyDataType.Memory,
   NumberOrHash.Number 0, 0, none, 0, [], 0, 0, 0⟩

/-- Placeholder ExecStep used only to extract components of concrete
runs. -/
def defaultExecStep : ExecStep := ⟨0, 0, []⟩

/-- Placeholder recorded operation used only to extract components of
concrete runs. -/
def defaultRecordedOp : RecordedOp := ⟨0, RW.Read, OpData.stack ⟨0, 0, 0⟩⟩

/-- Placeholder copy step used only to extract components of concrete
runs. -/
def defaultCopyStep : CopyStep :=
  ⟨0, CopyDataType.Memory, RW.Read, 0, none, false, 0, 0⟩

/-- The concrete `gen_copy_event` run on the root example. -/
def rootEventRun : State × CopyEvent :=
  (gen_copy_event exampleRootState exampleRootGeth).getD
    (exampleRootState, defaultCopyEvent)

/-- The concrete full handler run on the root example. -/
def rootOpsRun : State × List ExecStep :=
  (Calldatacopy.gen_associated_ops exampleRootState [exampleRootGeth]).getD
    (exampleRootState, [])

/-- A concrete CALLDATACOPY trace step with length 0: memory_offset 5,
data_offset 1, length 0. -/
def exampleZeroGeth : GethExecStep := ⟨9, [5, 1, 0]⟩

/-- The concrete full handler run of the zero-length copy on the root
state. -/
def zeroOpsRun : State × List ExecStep :=
  (Calldatacopy.gen_associated_ops exampleRootState [exampleZeroGeth]).getD
    (exampleRootState, [])

/-- The concrete `gen_copy_event` run on the inner (non-root) example. -/
def innerEventRun : State × CopyEvent :=
  (gen_copy_event exampleInnerState exampleInnerGeth).getD
    (exampleInnerState, defaultCopyEvent)

/-- The concrete full handler run on the inner (non-root) example. -/
def innerOpsRun : State × List ExecStep :=
  (Calldatacopy.gen_associated_ops exampleInnerState [exampleInnerGeth]).getD
    (exampleInnerState, [])

section PrimitiveLemmas

/-- The two components of `push_op`, spelled out. -/
theorem push_op_eq (s : State) (step : ExecStep) (rw : RW) (d : OpData) :
    push_op s step rw d =
      ({ s with rwc := s.rwc + 1, ops := s.ops ++ [⟨s.rwc, rw, d⟩] },
       { step with bus_mapping_instance :=
          step.bus_mapping_instance ++ [⟨s.rwc, rw, d⟩] }) := rfl

/-- Length of an extended memory buffer. -/
theorem extend_at_least_length (m : List Nat) (k : Nat) :
    (extend_at_least m k).length = max m.length k := by
  unfold extend_at_least
  split <;> simp <;> omega

/-- Extension never changes the zero-defaulted view of memory. -/
theorem getD_extend_at_least (m : List Nat) (k a : Nat) :
    (extend_at_least m k).getD a 0 = m.getD a 0 := by
  unfold extend_at_least
  split
  · rcases Nat.lt_or_ge a m.length with h | h
    · simp [List.getD_eq_getElem?_getD, List.getElem?_append_left h]
    · simp [List.getD_eq_getElem?_getD, List.getElem?_append_right h]
      rcases Nat.lt_or_ge (a - m.length) (k - m.length) with h2 | h2
      · simp [List.getElem?_replicate, h2, List.getElem?_eq_none h]
      · have h3 : (List.replicate (k - m.length) (0 : Nat)).length ≤ a - m.length := by
          simp only [List.length_replicate]; omega
        simp [List.getElem?_eq_none h, List.getElem?_eq_none h3]
  · rfl

/-- The byte just written by `memory_write` is visible at its address. -/
theorem memory_write_getD_self (s : State) (step : ExecStep) (a b : Nat) :
    (memory_write s step a b).1.call_ctx.memory.getD a 0 = b := by
  have hlen : a < (extend_at_least s.call_ctx.memory (a + 1)).length := by
    rw [extend_at_least_length]; omega
  simp [memory_write, push_op, List.getD_eq_getElem?_getD,
    List.getElem?_set_eq_of_lt b hlen]

/-- `memory_write` leaves every other address unchanged. -/
theorem memory_write_getD_ne (s : State) (step : ExecStep) (a b c : Nat)
    (h : c ≠ a) :
    (memory_write s step a b).1.call_ctx.memory.getD c 0 =
      s.call_ctx.memory.getD c 0 := by
  simp [memory_write, push_op, List.getD_eq_getElem?_getD,
    List.getElem?_set_ne (Ne.symm h)]
  rw [← List.getD_eq_getElem?_getD, ← List.getD_eq_getElem?_getD,
    getD_extend_at_least]

end PrimitiveLemmas

section IterLemmas

/-- Full characterization of one successful iteration of the copy loop:
state invariants, the shape of the produced Read and Write CopySteps, the
padding condition, the memory effect and the recorded operations. -/
theorem copyStepIter_spec (sa da se : Nat) (r : Bool) (s : State)
    (step : ExecStep) (idx : Nat) (s1 : State) (step1 : ExecStep)
    (rs ws : CopyStep)
    (h : copyStepIter sa da se r s step idx = some (s1, step1, rs, ws)) :
    s1.call = s.call ∧
    s1.call_ctx.call_data = s.call_ctx.call_data ∧
    s1.tx_id = s.tx_id ∧
    s1.copy_events = s.copy_events ∧
    rs.addr = sa + idx ∧
    rs.rw = RW.Read ∧
    rs.tag = (if r then CopyDataType.TxCalldata else CopyDataType.Memory) ∧
    rs.is_code = none ∧
    rs.rwc = s.rwc ∧
    (rs.is_pad = true ↔ se ≤ sa + idx) ∧
    rs.value = padValue s.call_ctx.call_data s.call.call_data_offset se (sa + idx) ∧
    ws.addr = da + idx ∧
    ws.rw = RW.Write ∧
    ws.tag = CopyDataType.Memory ∧
    ws.is_code = none ∧
    ws.is_pad = false ∧
    ws.value = rs.value ∧
    rs.rwc ≤ ws.rwc ∧
    s1.rwc = ws.rwc + 1 ∧
    s1.call_ctx.memory.getD (da + idx) 0 = ws.value ∧
    (∀ a, a ≠ da + idx →
      s1.call_ctx.memory.getD a 0 = s.call_ctx.memory.getD a 0) ∧
    s1.ops.map projOp = s.ops.map projOp ++
      (if sa + idx < se ∧ r = false
        then [(RW.Read, OpData.memory
          ⟨s.call.caller_id, sa + idx, padValue s.call_ctx.call_data
            s.call.call_data_offset se (sa + idx)⟩)]
        else []) ++
      [(RW.Write, OpData.memory ⟨s.call.call_id, da + idx,
        padValue s.call_ctx.call_data s.call.call_data_offset se (sa + idx)⟩)] := by
  unfold copyStepIter at h
  by_cases hlt : sa + idx < se
  · rw [if_pos hlt] at h
    rcases hget : s.call_ctx.call_data[sa + idx - s.call.call_data_offset]? with _ | byte
    · rw [hget] at h; exact absurd h (by simp)
    · rw [hget] at h
      have hval : padValue s.call_ctx.call_data s.call.call_data_offset se (sa + idx)
          = byte := by
        unfold padValue
        rw [if_pos hlt, List.getD_eq_getElem?_getD, hget]; rfl
      cases r
      · simp only [if_neg (by simp : ¬ (false = true))] at h
        cases h
        refine ⟨rfl, rfl, rfl, rfl, rfl, rfl, by simp, rfl, rfl, by simp [Nat.not_le.mpr hlt], by rw [hval], rfl, rfl, rfl, rfl, rfl, rfl, ?_, rfl, ?_, ?_, ?_⟩
        · simp [push_op]
        · exact memory_write_getD_self _ _ _ _
        · intro a ha
          rw [memory_write_getD_ne _ _ _ _ _ ha]
          simp [push_op]
        · rw [if_pos ⟨hlt, rfl⟩]
          simp [memory_write, push_op, projOp, hval]
      · simp only [if_pos rfl] at h
        cases h
        refine ⟨rfl, rfl, rfl, rfl, rfl, rfl, by simp, rfl, rfl, by simp [Nat.not_le.mpr hlt], by rw [hval], rfl, rfl, rfl, rfl, rfl, rfl, Nat.le_refl _, rfl, ?_, ?_, ?_⟩
        · exact memory_write_getD_self _ _ _ _
        · intro a ha
          exact memory_write_getD_ne _ _ _ _ _ ha
        · have hc : ¬ (sa + idx < se ∧ true = false) := by simp
          rw [if_neg hc]
          simp [memory_write, push_op, projOp, hval]
  · rw [if_neg hlt] at h
    cases h
    have hval : padValue s.call_ctx.call_data s.call.call_data_offset se (sa + idx)
        = 0 := by
      unfold padValue; rw [if_neg hlt]
    refine ⟨rfl, rfl, rfl, rfl, rfl, rfl, rfl, rfl, rfl, by simp [Nat.le_of_not_lt hlt], by rw [hval], rfl, rfl, rfl, rfl, rfl, rfl, Nat.le_refl _, rfl, ?_, ?_, ?_⟩
    · exact memory_write_getD_self _ _ _ _
    · intro a ha
      exact memory_write_getD_ne _ _ _ _ _ ha
    · have hc : ¬ (sa + idx < se ∧ r = false) := by simp [hlt]
      rw [if_neg hc]
      simp [memory_write, push_op, projOp, hval]

/-- One iteration always succeeds when the source window lies inside the
call data. -/
theorem copyStepIter_total (sa da se : Nat) (r : Bool) (s : State)
    (step : ExecStep) (idx : Nat)
    (hsa : s.call.call_data_offset ≤ sa)
    (hend : se ≤ s.call.call_data_offset + s.call_ctx.call_data.length) :
    ∃ out, copyStepIter sa da se r s step idx = some out := by
  unfold copyStepIter
  by_cases hlt : sa + idx < se
  · rw [if_pos hlt]
    have hidx : sa + idx - s.call.call_data_offset < s.call_ctx.call_data.length := by
      omega
    rcases hget : s.call_ctx.call_data[sa + idx - s.call.call_data_offset]? with _ | byte
    · exact absurd hget (by simp [List.getElem?_eq_none_iff]; omega)
    · exact ⟨_, rfl⟩
  · rw [if_neg hlt]
    exact ⟨_, rfl⟩

end IterLemmas

section LoopLemmas

/-- The copy loop never changes the current call, the call data, the
transaction id or the copy-event list, and the row counter never
decreases. -/
theorem copyStepsLoop_inv (sa da se : Nat) (r : Bool) (n : Nat) :
    ∀ (idx : Nat) (s : State) (step : ExecStep) (s' : State)
      (step' : ExecStep) (steps : List CopyStep),
    copyStepsLoop sa da se r s step idx n = some (s', step', steps) →
    s'.call = s.call ∧ s'.call_ctx.call_data = s.call_ctx.call_data ∧
    s'.tx_id = s.tx_id ∧ s'.copy_events = s.copy_events ∧ s.rwc ≤ s'.rwc := by
  induction n with
  | zero =>
    intro idx s step s' step' steps h
    cases h
    exact ⟨rfl, rfl, rfl, rfl, Nat.le_refl _⟩
  | succ n ih =>
    intro idx s step s' step' steps h
    rw [copyStepsLoop] at h
    rcases hit : copyStepIter sa da se r s step idx with _ | ⟨s1, step1, rs, ws⟩
    · rw [hit] at h; exact absurd h (by simp)
    · rw [hit] at h
      dsimp only at h
      rcases hrec : copyStepsLoop sa da se r s1 step1 (idx + 1) n with _ | ⟨s2, step2, rest⟩
      · rw [hrec] at h; dsimp only at h; exact absurd h (by simp)
      · rw [hrec] at h
        dsimp only at h
        cases h
        obtain ⟨hc, hcd, htx, hce, _, _, _, _, hrwc0, _, _, _, _, _, _, _, _, hle, hs1, _⟩ :=
          copyStepIter_spec sa da se r s step idx s1 step1 rs ws hit
        obtain ⟨ic, icd, itx, ice, irwc⟩ := ih (idx + 1) s1 step1 _ _ _ hrec
        refine ⟨ic.trans hc, icd.trans hcd, itx.trans htx, ice.trans hce, ?_⟩
        omega

/-- The copy loop produces two CopySteps per byte. -/
theorem copyStepsLoop_length (sa da se : Nat) (r : Bool) (n : Nat) :
    ∀ (idx : Nat) (s : State) (step : ExecStep) (s' : State)
      (step' : ExecStep) (steps : List CopyStep),
    copyStepsLoop sa da se r s step idx n = some (s', step', steps) →
    steps.length = 2 * n := by
  induction n with
  | zero =>
    intro idx s step s' step' steps h
    cases h; rfl
  | succ n ih =>
    intro idx s step s' step' steps h
    rw [copyStepsLoop] at h
    rcases hit : copyStepIter sa da se r s step idx with _ | ⟨s1, step1, rs, ws⟩
    · rw [hit] at h; exact absurd h (by simp)
    · rw [hit] at h
      dsimp only at h
      rcases hrec : copyStepsLoop sa da se r s1 step1 (idx + 1) n with _ | ⟨s2, step2, rest⟩
      · rw [hrec] at h; dsimp only at h; exact absurd h (by simp)
      · rw [hrec] at h
        dsimp only at h
        cases h
        have := ih (idx + 1) s1 step1 _ _ _ hrec
        simp [this]; omega

/-- The copy loop never changes memory below the destination window. -/
theorem copyStepsLoop_mem_lower (sa da se : Nat) (r : Bool) (n : Nat) :
    ∀ (idx : Nat) (s : State) (step : ExecStep) (s' : State)
      (step' : ExecStep) (steps : List CopyStep),
    copyStepsLoop sa da se r s step idx n = some (s', step', steps) →
    ∀ a, a < da + idx →
      s'.call_ctx.memory.getD a 0 = s.call_ctx.memory.getD a 0 := by
  induction n with
  | zero =>
    intro idx s step s' step' steps h a ha
    cases h; rfl
  | succ n ih =>
    intro idx s step s' step' steps h a ha
    rw [copyStepsLoop] at h
    rcases hit : copyStepIter sa da se r s step idx with _ | ⟨s1, step1, rs, ws⟩
    · rw [hit] at h; exact absurd h (by simp)
    · rw [hit] at h
      dsimp only at h
      rcases hrec : copyStepsLoop sa da se r s1 step1 (idx + 1) n with _ | ⟨s2, step2, rest⟩
      · rw [hrec] at h; dsimp only at h; exact absurd h (by simp)
      · rw [hrec] at h
        dsimp only at h
        cases h
        obtain ⟨_, _, _, _, _, _, _, _, _, _, _, _, _, _, _, _, _, _, _, _, hne, _⟩ :=
          copyStepIter_spec sa da se r s step idx s1 step1 rs ws hit
        rw [ih (idx + 1) s1 step1 _ _ _ hrec a (by omega)]
        exact hne a (by omega)

/-- Pointwise characterization of the steps the copy loop produces: the
`i`-th pair is a Read at source address `sa + idx + i` and a Write at
destination address `da + idx + i`, padded iff the source address reaches
`se`, both carrying the padded value, and the final memory holds that value
at the destination address. -/
theorem copyStepsLoop_pointwise (sa da se : Nat) (r : Bool) (n : Nat) :
    ∀ (idx : Nat) (s : State) (step : ExecStep) (s' : State)
      (step' : ExecStep) (steps : List CopyStep),
    copyStepsLoop sa da se r s step idx n = some (s', step', steps) →
    ∀ i, i < n →
    ∃ rs ws, steps[2 * i]? = some rs ∧ steps[2 * i + 1]? = some ws ∧
      rs.addr = sa + (idx + i) ∧
      rs.rw = RW.Read ∧
      rs.tag = (if r then CopyDataType.TxCalldata else CopyDataType.Memory) ∧
      rs.is_code = none ∧
      (rs.is_pad = true ↔ se ≤ sa + (idx + i)) ∧
      rs.value = padValue s.call_ctx.call_data s.call.call_data_offset se
        (sa + (idx + i)) ∧
      ws.addr = da + (idx + i) ∧
      ws.rw = RW.Write ∧
      ws.tag = CopyDataType.Memory ∧
      ws.is_code = none ∧
      ws.is_pad = false ∧
      ws.value = rs.value ∧
      s'.call_ctx.memory.getD (da + (idx + i)) 0 = ws.value := by
  induction n with
  | zero =>
    intro idx s step s' step' steps h i hi
    exact absurd hi (by omega)
  | succ n ih =>
    intro idx s step s' step' steps h i hi
    rw [copyStepsLoop] at h
    rcases hit : copyStepIter sa da se r s step idx with _ | ⟨s1, step1, rs, ws⟩
    · rw [hit] at h; exact absurd h (by simp)
    · rw [hit] at h
      dsimp only at h
      rcases hrec : copyStepsLoop sa da se r s1 step1 (idx + 1) n with _ | ⟨s2, step2, rest⟩
      · rw [hrec] at h; dsimp only at h; exact absurd h (by simp)
      · rw [hrec] at h
        dsimp only at h
        cases h
        obtain ⟨hc, hcd, _, _, ha, hrw, htag, hcode, hrwc0, hpad, hvalue, wa, wrw,
          wtag, wcode, wpad, wval, _, hs1rwc, hmem, hne, _⟩ :=
          copyStepIter_spec sa da se r s step idx s1 step1 rs ws hit
        rcases Nat.eq_zero_or_pos i with hz | hpos
        · subst hz
          refine ⟨rs, ws, by simp, by simp, by simpa using ha, hrw,
            htag, hcode, by simpa using hpad, by simpa using hvalue,
            by simpa using wa, wrw, wtag, wcode, wpad, wval, ?_⟩
          simp only [Nat.add_zero]
          rw [copyStepsLoop_mem_lower sa da se r n (idx + 1) s1 step1 _ _
            _ hrec (da + idx) (by omega)]
          simpa [wval] using hmem
        · obtain ⟨j, rfl⟩ : ∃ j, i = j + 1 := ⟨i - 1, by omega⟩
          obtain ⟨rs2, ws2, h1, h2, e1, e2, e3, e4, e5, e6, e7, e8, e9, e10, e11, e12, e13⟩ :=
            ih (idx + 1) s1 step1 _ _ _ hrec j (by omega)
          refine ⟨rs2, ws2, ?_, ?_, ?_, e2, e3, e4, ?_, ?_, ?_, e8, e9, e10, e11, e12, ?_⟩
          · have : 2 * (j + 1) = (2 * j + 1) + 1 := by ring
            rw [this]
            simpa using h1
          · have : 2 * (j + 1) + 1 = (2 * j + 1 + 1) + 1 := by ring
            rw [this]
            simpa using h2
          · rw [e1]; omega
          · rw [e5]; omega
          · rw [e6, hcd, hc]
            have harr : sa + (idx + 1 + j) = sa + (idx + (j + 1)) := by omega
            rw [harr]
          · rw [e7]; omega
          · have harr : da + (idx + (j + 1)) = da + (idx + 1 + j) := by omega
            rw [harr, e13]

/-- The last CopyStep a non-empty copy loop produces is a Write whose
recorded row counter is one below the loop's final row counter (the write's
own memory operation is still pending when the counter is recorded). -/
theorem copyStepsLoop_last (sa da se : Nat) (r : Bool) (n : Nat) :
    ∀ (idx : Nat) (s : State) (step : ExecStep) (s' : State)
      (step' : ExecStep) (steps : List CopyStep),
    copyStepsLoop sa da se r s step idx (n + 1) = some (s', step', steps) →
    ∃ ws, steps.getLast? = some ws ∧ ws.rw = RW.Write ∧ ws.rwc + 1 = s'.rwc := by
  induction n with
  | zero =>
    intro idx s step s' step' steps h
    rw [copyStepsLoop] at h
    rcases hit : copyStepIter sa da se r s step idx with _ | ⟨s1, step1, rs, ws⟩
    · rw [hit] at h; exact absurd h (by simp)
    · rw [hit] at h
      dsimp only at h
      rw [copyStepsLoop] at h
      dsimp only at h
      cases h
      obtain ⟨_, _, _, _, _, _, _, _, _, _, _, _, hwrw, _, _, _, _, _, hs1, _, _, _⟩ :=
        copyStepIter_spec sa da se r s step idx _ _ rs ws hit
      exact ⟨ws, rfl, hwrw, hs1.symm⟩
  | succ n ih =>
    intro idx s step s' step' steps h
    rw [copyStepsLoop] at h
    rcases hit : copyStepIter sa da se r s step idx with _ | ⟨s1, step1, rs, ws⟩
    · rw [hit] at h; exact absurd h (by simp)
    · rw [hit] at h
      dsimp only at h
      rcases hrec : copyStepsLoop sa da se r s1 step1 (idx + 1) (n + 1) with _ | ⟨s2, step2, rest⟩
      · rw [hrec] at h; dsimp only at h; exact absurd h (by simp)
      · rw [hrec] at h
        dsimp only at h
        cases h
        obtain ⟨ws2, hlast, hwrw2, hrwc2⟩ := ih (idx + 1) s1 step1 _ _ _ hrec
        have hne : rest ≠ [] := by
          intro hnil
          rw [hnil] at hlast
          exact absurd hlast (by simp)
        refine ⟨ws2, ?_, hwrw2, hrwc2⟩
        rw [List.getLast?_cons_cons]
        cases rest with
        | nil => exact absurd rfl hne
        | cons a l => rw [List.getLast?_cons_cons]; exact hlast

/-- The operations the copy loop appends to the log are exactly those of
`loopOpsSpec`, in order. -/
theorem copyStepsLoop_ops (sa da se : Nat) (r : Bool) (n : Nat) :
    ∀ (idx : Nat) (s : State) (step : ExecStep) (s' : State)
      (step' : ExecStep) (steps : List CopyStep),
    copyStepsLoop sa da se r s step idx n = some (s', step', steps) →
    s'.ops.map projOp = s.ops.map projOp ++
      loopOpsSpec s.call_ctx.call_data s.call.call_data_offset
        s.call.caller_id s.call.call_id sa da se r idx n := by
  induction n with
  | zero =>
    intro idx s step s' step' steps h
    cases h
    simp [loopOpsSpec]
  | succ n ih =>
    intro idx s step s' step' steps h
    rw [copyStepsLoop] at h
    rcases hit : copyStepIter sa da se r s step idx with _ | ⟨s1, step1, rs, ws⟩
    · rw [hit] at h; exact absurd h (by simp)
    · rw [hit] at h
      dsimp only at h
      rcases hrec : copyStepsLoop sa da se r s1 step1 (idx + 1) n with _ | ⟨s2, step2, rest⟩
      · rw [hrec] at h; dsimp only at h; exact absurd h (by simp)
      · rw [hrec] at h
        dsimp only at h
        cases h
        obtain ⟨hc, hcd, _, _, _, _, _, _, _, _, hvalue, _, _, _, _, _, wval, _, _, _, _, hops⟩ :=
          copyStepIter_spec sa da se r s step idx s1 step1 rs ws hit
        have hih := ih (idx + 1) s1 step1 _ _ _ hrec
        rw [hih, hops, hcd, hc]
        rw [loopOpsSpec]
        simp only [List.append_assoc]

/-- The copy loop always succeeds when the valid source window lies inside
the current call data. -/
theorem copyStepsLoop_total (sa da se : Nat) (r : Bool) (n : Nat) :
    ∀ (idx : Nat) (s : State) (step : ExecStep),
    s.call.call_data_offset ≤ sa →
    se ≤ s.call.call_data_offset + s.call_ctx.call_data.length →
    ∃ out, copyStepsLoop sa da se r s step idx n = some out := by
  induction n with
  | zero =>
    intro idx s step _ _
    exact ⟨_, rfl⟩
  | succ n ih =>
    intro idx s step hsa hend
    obtain ⟨⟨s1, step1, rs, ws⟩, hit⟩ := copyStepIter_total sa da se r s step idx hsa hend
    obtain ⟨hc, hcd, _⟩ := copyStepIter_spec sa da se r s step idx s1 step1 rs ws hit
    obtain ⟨⟨s2, step2, rest⟩, hrec⟩ := ih (idx + 1) s1 step1 (by rw [hc]; exact hsa)
      (by rw [hc, hcd]; exact hend)
    refine ⟨(s2, step2, rs :: ws :: rest), ?_⟩
    rw [copyStepsLoop, hit]
    dsimp only
    rw [hrec]

end LoopLemmas

section OpsSpecLemmas

/-- Every operation the copy loop records is a memory operation. -/
theorem loopOpsSpec_mem_memory (cd : List Nat) (cdo caller callId sa da se : Nat)
    (r : Bool) (n : Nat) :
    ∀ (idx : Nat) (p : RW × OpData),
    p ∈ loopOpsSpec cd cdo caller callId sa da se r idx n →
    ∃ mo, p.2 = OpData.memory mo := by
  induction n with
  | zero =>
    intro idx p hp
    rw [loopOpsSpec] at hp
    exact absurd hp (by simp)
  | succ n ih =>
    intro idx p hp
    rw [loopOpsSpec] at hp
    rcases List.mem_append.mp hp with hp1 | hp2
    · rcases List.mem_append.mp hp1 with hp3 | hp4
      · by_cases hcond : sa + idx < se ∧ r = false
        · rw [if_pos hcond] at hp3
          rcases List.mem_singleton.mp hp3 with rfl
          exact ⟨_, rfl⟩
        · rw [if_neg hcond] at hp3
          exact absurd hp3 (by simp)
      · rcases List.mem_singleton.mp hp4 with rfl
        exact ⟨_, rfl⟩
    · exact ih (idx + 1) p hp2

/-- Every Read operation the copy loop records reads below the valid-source
boundary (padded bytes record no Read). -/
theorem loopOpsSpec_read_lt (cd : List Nat) (cdo caller callId sa da se : Nat)
    (r : Bool) (n : Nat) :
    ∀ (idx : Nat) (p : RW × OpData),
    p ∈ loopOpsSpec cd cdo caller callId sa da se r idx n →
    p.1 = RW.Read →
    ∃ mo, p.2 = OpData.memory mo ∧ mo.address < se := by
  induction n with
  | zero =>
    intro idx p hp _
    rw [loopOpsSpec] at hp
    exact absurd hp (by simp)
  | succ n ih =>
    intro idx p hp hread
    rw [loopOpsSpec] at hp
    rcases List.mem_append.mp hp with hp1 | hp2
    · rcases List.mem_append.mp hp1 with hp3 | hp4
      · by_cases hcond : sa + idx < se ∧ r = false
        · rw [if_pos hcond] at hp3
          rcases List.mem_singleton.mp hp3 with rfl
          exact ⟨_, rfl, hcond.1⟩
        · rw [if_neg hcond] at hp3
          exact absurd hp3 (by simp)
      · rcases List.mem_singleton.mp hp4 with rfl
        exact absurd hread (by simp)
    · exact ih (idx + 1) p hp2 hread

/-- A root-call copy loop records no memory Read at all. -/
theorem loopOpsSpec_filter_read_root (cd : List Nat)
    (cdo caller callId sa da se : Nat) (n : Nat) :
    ∀ (idx : Nat),
    (loopOpsSpec cd cdo caller callId sa da se true idx n).filter
      isMemoryReadEntry = [] := by
  induction n with
  | zero =>
    intro idx
    rw [loopOpsSpec]
    rfl
  | succ n ih =>
    intro idx
    rw [loopOpsSpec]
    have hc : ¬ (sa + idx < se ∧ true = false) := by simp
    rw [if_neg hc]
    simp only [List.nil_append, List.filter_append, ih (idx + 1), List.append_nil]
    rfl

/-- A non-root copy loop records memory Reads exactly for the non-padded
source offsets, in order, against the caller's frame. -/
theorem loopOpsSpec_filter_read (cd : List Nat)
    (cdo caller callId sa da se : Nat) (n : Nat) :
    ∀ (idx : Nat),
    (loopOpsSpec cd cdo caller callId sa da se false idx n).filter
      isMemoryReadEntry =
    ((List.range' idx n).filter (fun j => decide (sa + j < se))).map
      (fun j => (RW.Read, OpData.memory ⟨caller, sa + j, cd.getD (sa + j - cdo) 0⟩)) := by
  induction n with
  | zero =>
    intro idx
    rw [loopOpsSpec]
    rfl
  | succ n ih =>
    intro idx
    rw [loopOpsSpec, List.range'_succ]
    by_cases hlt : sa + idx < se
    · rw [if_pos ⟨hlt, rfl⟩]
      have hpv : padValue cd cdo se (sa + idx) = cd.getD (sa + idx - cdo) 0 := by
        unfold padValue
        rw [if_pos hlt]
      simp [List.filter_append, List.filter_cons, ih (idx + 1), isMemoryReadEntry,
        hpv, hlt]
    · rw [if_neg (fun hco => hlt hco.1)]
      simp [List.filter_append, List.filter_cons, ih (idx + 1), isMemoryReadEntry, hlt]

/-- The copy loop records a current-frame memory Write for every
destination byte, padded or not. -/
theorem loopOpsSpec_write_mem (cd : List Nat)
    (cdo caller callId sa da se : Nat) (r : Bool) (n : Nat) :
    ∀ (idx i : Nat), i < n →
    (RW.Write, OpData.memory ⟨callId, da + (idx + i), padValue cd cdo se (sa + (idx + i))⟩)
      ∈ loopOpsSpec cd cdo caller callId sa da se r idx n := by
  induction n with
  | zero =>
    intro idx i hi
    exact absurd hi (by omega)
  | succ n ih =>
    intro idx i hi
    rw [loopOpsSpec]
    rcases Nat.eq_zero_or_pos i with rfl | hpos
    · simp
    · obtain ⟨j, rfl⟩ : ∃ j, i = j + 1 := ⟨i - 1, by omega⟩
      have hmem := ih (idx + 1) j (by omega)
      have harr1 : idx + 1 + j = idx + (j + 1) := by omega
      rw [harr1] at hmem
      simp only [List.mem_append]
      exact Or.inr hmem

end OpsSpecLemmas

section ElimLemmas

/-- Full characterization of a successful `gen_calldatacopy_step`: the
operands come off the stack, the returned ExecStep carries exactly the
three stack reads followed by the call-context reads, all of them appended
to the log in the same order, and nothing else changes. -/
theorem gen_calldatacopy_step_spec (s : State) (g : GethExecStep)
    (s1 : State) (es : ExecStep)
    (h : gen_calldatacopy_step s g = some (s1, es)) :
    ∃ mo dataOffset len,
      g.nth_last 0 = some mo ∧ g.nth_last 1 = some dataOffset ∧
      g.nth_last 2 = some len ∧
      es.bus_mapping_instance.map projOp = stackCcSpec s g mo dataOffset len ∧
      s1.ops = s.ops ++ es.bus_mapping_instance ∧
      s1.call = s.call ∧ s1.call_ctx = s.call_ctx ∧ s1.tx_id = s.tx_id ∧
      s1.copy_events = s.copy_events ∧ es.pc = g.pc := by
  rcases h0 : g.nth_last 0 with _ | mo
  · rw [gen_calldatacopy_step] at h
    simp [h0] at h
  rcases h1 : g.nth_last 1 with _ | dataOffset
  · rw [gen_calldatacopy_step] at h
    simp [h0, h1] at h
  rcases h2 : g.nth_last 2 with _ | len
  · rw [gen_calldatacopy_step] at h
    simp [h0, h1, h2] at h
  refine ⟨mo, dataOffset, len, rfl, rfl, rfl, ?_⟩
  rw [gen_calldatacopy_step] at h
  simp only [h0, h1, h2, Option.bind_eq_bind, Option.some_bind] at h
  by_cases hroot : s.call.is_root
  · rw [if_pos (by simpa [stack_read, push_op] using hroot)] at h
    cases h
    refine ⟨?_, ?_, rfl, rfl, rfl, rfl, rfl⟩
    · simp [stackCcSpec, stack_read, call_context_read, push_op, new_step,
        projOp, hroot]
    · simp [stack_read, call_context_read, push_op, new_step]
  · rw [if_neg (by simpa [stack_read, push_op] using hroot)] at h
    cases h
    refine ⟨?_, ?_, rfl, rfl, rfl, rfl, rfl⟩
    · simp [stackCcSpec, stack_read, call_context_read, push_op, new_step,
        projOp, hroot]
    · simp [stack_read, call_context_read, push_op, new_step]

/-- `gen_calldatacopy_step` succeeds whenever the stack holds the three
operands. -/
theorem gen_calldatacopy_step_total (s : State) (g : GethExecStep)
    (mo dataOffset len : Nat)
    (h0 : g.nth_last 0 = some mo) (h1 : g.nth_last 1 = some dataOffset)
    (h2 : g.nth_last 2 = some len) :
    ∃ out, gen_calldatacopy_step s g = some out := by
  rw [gen_calldatacopy_step]
  simp only [h0, h1, h2, Option.bind_eq_bind, Option.some_bind]
  by_cases hroot : s.call.is_root
  · rw [if_pos (by simpa [stack_read, push_op] using hroot)]
    exact ⟨_, rfl⟩
  · rw [if_neg (by simpa [stack_read, push_op] using hroot)]
    exact ⟨_, rfl⟩

/-- A successful `gen_copy_steps` is the loop followed by the
`rwc_inc_left` backfill. -/
theorem gen_copy_steps_elim (s : State) (step : ExecStep)
    (sa da se n : Nat) (r : Bool) (s' : State) (step' : ExecStep)
    (steps' : List CopyStep)
    (h : gen_copy_steps s step sa da se n r = some (s', step', steps')) :
    ∃ steps, copyStepsLoop sa da se r s step 0 n = some (s', step', steps) ∧
      steps' = steps.map fun cs => { cs with rwc_inc_left := s'.rwc - cs.rwc } := by
  rw [gen_copy_steps] at h
  rcases hl : copyStepsLoop sa da se r s step 0 n with _ | ⟨s1, step1, steps⟩
  · rw [hl] at h; exact absurd h (by simp)
  · rw [hl] at h
    dsimp only at h
    rw [Option.some.injEq, Prod.mk.injEq, Prod.mk.injEq] at h
    obtain ⟨rfl, rfl, rfl⟩ := h
    exact ⟨_, rfl, rfl⟩

/-- Full characterization of a successful `gen_copy_event`: operands,
the underlying loop run and every field of the produced event. -/
theorem gen_copy_event_elim (s : State) (g : GethExecStep) (s' : State)
    (ev : CopyEvent) (h : gen_copy_event s g = some (s', ev)) :
    ∃ mo dataOffset len step' steps,
      g.nth_last 0 = some mo ∧ g.nth_last 1 = some dataOffset ∧
      g.nth_last 2 = some len ∧
      copyStepsLoop (s.call.call_data_offset + dataOffset) mo
        (s.call.call_data_offset + s.call.call_data_length) s.call.is_root
        s (new_step s g) 0 len = some (s', step', steps) ∧
      ev.src_addr = s.call.call_data_offset + dataOffset ∧
      ev.src_addr_end = s.call.call_data_offset + s.call.call_data_length ∧
      ev.dst_addr = mo ∧
      ev.length = len ∧
      ev.steps = steps.map (fun cs => { cs with rwc_inc_left := s'.rwc - cs.rwc }) ∧
      ev.src_type = (if s'.call.is_root then CopyDataType.TxCalldata
        else CopyDataType.Memory) ∧
      ev.src_id = NumberOrHash.Number
        (if s'.call.is_root then s'.tx_id else s'.call.caller_id) ∧
      ev.dst_type = CopyDataType.Memory ∧
      ev.dst_id = NumberOrHash.Number s'.call.call_id ∧
      ev.log_id = none ∧
      ev.tx_id = s'.tx_id ∧
      ev.call_id = s'.call.call_id := by
  rcases h0 : g.nth_last 0 with _ | mo
  · rw [gen_copy_event] at h
    simp [h0] at h
  rcases h1 : g.nth_last 1 with _ | dataOffset
  · rw [gen_copy_event] at h
    simp [h0, h1] at h
  rcases h2 : g.nth_last 2 with _ | len
  · rw [gen_copy_event] at h
    simp [h0, h1, h2] at h
  rw [gen_copy_event] at h
  simp only [h0, h1, h2, Option.bind_eq_bind, Option.some_bind] at h
  rcases hgs : gen_copy_steps s (new_step s g)
      (s.call.call_data_offset + dataOffset) mo
      (s.call.call_data_offset + s.call.call_data_length) len
      s.call.is_root with _ | ⟨s1, step1, csteps⟩
  · rw [hgs] at h; exact absurd h (by simp)
  · rw [hgs] at h
    dsimp only at h
    cases h
    obtain ⟨steps, hloop, hmap⟩ := gen_copy_steps_elim _ _ _ _ _ _ _ _ _ _ hgs
    refine ⟨mo, dataOffset, len, step1, steps, rfl, rfl, rfl, hloop, rfl, rfl,
      rfl, rfl, ?_, ?_, ?_, rfl, rfl, rfl, rfl, rfl⟩
    · exact hmap
    · by_cases hroot : s'.call.is_root <;> simp [hroot]
    · by_cases hroot : s'.call.is_root <;> simp [hroot]

/-- Decomposition of a successful `gen_associated_ops` run into the
bus-mapping step, the memory reconstruction and the copy event. -/
theorem gen_associated_ops_elim (s : State) (g : GethExecStep) (s' : State)
    (out : List ExecStep)
    (h : Calldatacopy.gen_associated_ops s [g] = some (s', out)) :
    ∃ s1 es mo dataOffset len s3 ev,
      gen_calldatacopy_step s g = some (s1, es) ∧
      g.nth_last 0 = some mo ∧ g.nth_last 1 = some dataOffset ∧
      g.nth_last 2 = some len ∧
      gen_copy_event { s1 with call_ctx := { s1.call_ctx with
        memory := reconstructMemory s1.call_ctx.memory s1.call_ctx.call_data
          mo dataOffset len } } g = some (s3, ev) ∧
      s' = push_copy s3 ev ∧ out = [es] := by
  rw [Calldatacopy.gen_associated_ops] at h
  simp only [List.head?_cons, Option.bind_eq_bind, Option.some_bind] at h
  rcases hstep : gen_calldatacopy_step s g with _ | ⟨s1, es⟩
  · rw [hstep] at h; exact absurd h (by simp)
  rw [hstep] at h
  simp only [Option.bind_eq_bind, Option.some_bind] at h
  rcases h0 : g.nth_last 0 with _ | mo
  · simp [h0] at h
  rcases h1 : g.nth_last 1 with _ | dataOffset
  · simp [h0, h1] at h
  rcases h2 : g.nth_last 2 with _ | len
  · simp [h0, h1, h2] at h
  simp only [h0, h1, h2, Option.some_bind] at h
  rcases hev : gen_copy_event { s1 with call_ctx := { s1.call_ctx with
      memory := reconstructMemory s1.call_ctx.memory s1.call_ctx.call_data
        mo dataOffset len } } g with _ | ⟨s3, ev⟩
  · rw [hev] at h; exact absurd h (by simp)
  · rw [hev] at h
    dsimp only at h
    cases h
    exact ⟨_, _, _, _, _, _, _, rfl, rfl, rfl, rfl, hev, rfl, rfl⟩

end ElimLemmas

section FilterLemmas

/-- The call-context entries of the bus-mapping step's trace are exactly
the root- or non-root set of call-context reads, in order. -/
theorem stackCcSpec_filter_cc (s : State) (g : GethExecStep)
    (mo dataOffset len : Nat) :
    (stackCcSpec s g mo dataOffset len).filter isCallContextEntry =
      (if s.call.is_root then
        [(RW.Read, OpData.callContext
           ⟨s.call.call_id, CallContextField.TxId, s.tx_id⟩),
         (RW.Read, OpData.callContext
           ⟨s.call.call_id, CallContextField.CallDataLength, s.call.call_data_length⟩)]
      else
        [(RW.Read, OpData.callContext
           ⟨s.call.call_id, CallContextField.CallerId, s.call.caller_id⟩),
         (RW.Read, OpData.callContext
           ⟨s.call.call_id, CallContextField.CallDataLength, s.call.call_data_length⟩),
         (RW.Read, OpData.callContext
           ⟨s.call.call_id, CallContextField.CallDataOffset, s.call.call_data_offset⟩)]) := by
  by_cases hroot : s.call.is_root <;>
    simp [stackCcSpec, isCallContextEntry, hroot]

/-- The bus-mapping step records no memory Read. -/
theorem stackCcSpec_filter_memread (s : State) (g : GethExecStep)
    (mo dataOffset len : Nat) :
    (stackCcSpec s g mo dataOffset len).filter isMemoryReadEntry = [] := by
  by_cases hroot : s.call.is_root <;>
    simp [stackCcSpec, isMemoryReadEntry, hroot]

/-- A trace of memory operations has no call-context entry. -/
theorem filter_cc_of_all_memory (l : List (RW × OpData))
    (h : ∀ p ∈ l, ∃ mop, p.2 = OpData.memory mop) :
    l.filter isCallContextEntry = [] := by
  induction l with
  | nil => rfl
  | cons a l ih =>
    obtain ⟨mop, hm⟩ := h a (by simp)
    rw [List.filter_cons]
    rw [if_neg (by simp [isCallContextEntry, hm])]
    exact ih (fun p hp => h p (by simp [hp]))

end FilterLemmas

section TotalityLemmas

/-- `gen_copy_event` succeeds whenever the stack holds the operands and the
call data has exactly the declared length. -/
theorem gen_copy_event_total (s : State) (g : GethExecStep)
    (mo dataOffset len : Nat)
    (h0 : g.nth_last 0 = some mo) (h1 : g.nth_last 1 = some dataOffset)
    (h2 : g.nth_last 2 = some len)
    (hcd : s.call_ctx.call_data.length = s.call.call_data_length) :
    ∃ out, gen_copy_event s g = some out := by
  rw [gen_copy_event]
  simp only [h0, h1, h2, Option.bind_eq_bind, Option.some_bind]
  obtain ⟨⟨s1, step1, steps⟩, hloop⟩ :=
    copyStepsLoop_total (s.call.call_data_offset + dataOffset) mo
      (s.call.call_data_offset + s.call.call_data_length) s.call.is_root len
      0 s (new_step s g) (by omega) (by omega)
  rw [gen_copy_steps, hloop]
  dsimp only
  exact ⟨_, rfl⟩

/-- The whole calldatacopy handler succeeds whenever the stack holds the
operands and the call data has exactly the declared length. -/
theorem gen_associated_ops_total (s : State) (g : GethExecStep)
    (mo dataOffset len : Nat)
    (h0 : g.nth_last 0 = some mo) (h1 : g.nth_last 1 = some dataOffset)
    (h2 : g.nth_last 2 = some len)
    (hcd : s.call_ctx.call_data.length = s.call.call_data_length) :
    ∃ out, Calldatacopy.gen_associated_ops s [g] = some out := by
  obtain ⟨⟨s1, es⟩, hstep⟩ := gen_calldatacopy_step_total s g mo dataOffset len h0 h1 h2
  obtain ⟨_, _, _, _, _, _, _, _, hcall, hcc, _, _, _⟩ :=
    gen_calldatacopy_step_spec s g s1 es hstep
  obtain ⟨⟨s3, ev⟩, hev⟩ := gen_copy_event_total
    { s1 with call_ctx := { s1.call_ctx with
        memory := reconstructMemory s1.call_ctx.memory s1.call_ctx.call_data
          mo dataOffset len } } g mo dataOffset len h0 h1 h2
    (by simpa [hcc, hcall] using hcd)
  rw [Calldatacopy.gen_associated_ops]
  simp only [List.head?_cons, Option.bind_eq_bind, Option.some_bind]
  rw [hstep]
  simp only [Option.some_bind]
  simp only [h0, h1, h2, Option.some_bind]
  rw [hev]
  exact ⟨_, rfl⟩

end TotalityLemmas

section ClaimTheorems

/-- Claim C7: for every CopyEvent produced by the calldatacopy handler, the
number of entries in its steps list equals exactly 2 * length — one Read
step and one Write step per copied byte — including when some or all source
bytes are padded. -/
theorem C7_copy_event_length (s : State) (g : GethExecStep) (s' : State)
    (ev : CopyEvent) (h : gen_copy_event s g = some (s', ev)) :
    ev.steps.length = 2 * ev.length := by
  obtain ⟨mo, dOff, len, step', steps, h0, h1, h2, hloop, hsa, hse, hda, hlen,
    hsteps, hst, hsi, hdt, hdi, hli, hti, hci⟩ := gen_copy_event_elim s g s' ev h
  rw [hsteps, List.length_map, hlen]
  exact copyStepsLoop_length _ _ _ _ _ _ _ _ _ _ _ hloop

/-- Claim C7 witness: the concrete root run has 2 steps for length 1. -/
theorem C7_copy_event_length_witness :
    rootEventRun.2.steps.length = 2 * rootEventRun.2.length :=
  C7_copy_event_length exampleRootState exampleRootGeth rootEventRun.1
    rootEventRun.2 (by rfl)

/-- Claim C4: after all CopySteps of a calldatacopy CopyEvent are built,
every step's rwc_inc_left equals the final row-counter value in effect at
the end of the event minus the step's own recorded row-counter value. -/
theorem C4_rwc_inc_left_backfill (s : State) (g : GethExecStep) (s' : State)
    (ev : CopyEvent) (h : gen_copy_event s g = some (s', ev))
    (cs : CopyStep) (hcs : cs ∈ ev.steps) :
    cs.rwc_inc_left = s'.rwc - cs.rwc := by
  obtain ⟨mo, dOff, len, step', steps, h0, h1, h2, hloop, hsa, hse, hda, hlen,
    hsteps, _⟩ := gen_copy_event_elim s g s' ev h
  rw [hsteps] at hcs
  obtain ⟨c, hc, rfl⟩ := List.mem_map.mp hcs
  rfl

/-- Claim C4 witness: applied to the first step of the concrete non-root
run. -/
theorem C4_rwc_inc_left_backfill_witness :
    (innerEventRun.2.steps.headD defaultCopyStep).rwc_inc_left =
      innerEventRun.1.rwc - (innerEventRun.2.steps.headD defaultCopyStep).rwc :=
  C4_rwc_inc_left_backfill exampleInnerState exampleInnerGeth innerEventRun.1
    innerEventRun.2 (by rfl) (innerEventRun.2.steps.headD defaultCopyStep)
    (by decide)

/-- Claim C5 counterexample: the claim asserts the event's last
counter-consuming step has rwc_inc_left = 0.  In the concrete root run the
event has length 1 and its last step is the final Write step, whose memory
operation is the event's last row-counter-drawing operation; its
rwc_inc_left is 1, not 0, because the step's row counter is recorded before
the write's own operation consumes the counter. -/
theorem C5_last_step_counterexample :
    (rootEventRun.2.steps.getLastD defaultCopyStep).rw = RW.Write ∧
    rootEventRun.1.rwc = (rootEventRun.2.steps.getLastD defaultCopyStep).rwc + 1 ∧
    (rootEventRun.2.steps.getLastD defaultCopyStep).rwc_inc_left = 1 ∧
    (rootEventRun.2.steps.getLastD defaultCopyStep).rwc_inc_left ≠ 0 := by
  decide

/-- Claim C5 as amended: in every calldatacopy CopyEvent with at least one
step, the last step is the final Write step and its rwc_inc_left equals 1 —
the backfilled count still includes the write's own pending memory
operation, reaching 0 only one counter tick after the step's recorded
counter. -/
theorem C5_last_step_inc_left_one (s : State) (g : GethExecStep) (s' : State)
    (ev : CopyEvent) (h : gen_copy_event s g = some (s', ev))
    (hne : ev.steps ≠ []) :
    ∃ ws, ev.steps.getLast? = some ws ∧ ws.rw = RW.Write ∧
      ws.rwc_inc_left = 1 := by
  obtain ⟨mo, dOff, len, step', steps, h0, h1, h2, hloop, hsa, hse, hda, hlen,
    hsteps, _⟩ := gen_copy_event_elim s g s' ev h
  have hlensteps := copyStepsLoop_length _ _ _ _ _ _ _ _ _ _ _ hloop
  obtain ⟨m, rfl⟩ : ∃ m, len = m + 1 := by
    rcases len with _ | m
    · exfalso
      apply hne
      rw [hsteps]
      cases steps with
      | nil => rfl
      | cons a l => simp at hlensteps
    · exact ⟨m, rfl⟩
  obtain ⟨ws, hlast, hwrw, hrwc⟩ :=
    copyStepsLoop_last _ _ _ _ m _ _ _ _ _ _ hloop
  refine ⟨{ ws with rwc_inc_left := s'.rwc - ws.rwc }, ?_, hwrw, ?_⟩
  · rw [hsteps, List.getLast?_map, hlast]
    rfl
  · show s'.rwc - ws.rwc = 1
    omega

/-- Claim C5 amended witness: the concrete root run's last step. -/
theorem C5_last_step_inc_left_one_witness :
    ∃ ws, rootEventRun.2.steps.getLast? = some ws ∧ ws.rw = RW.Write ∧
      ws.rwc_inc_left = 1 :=
  C5_last_step_inc_left_one exampleRootState exampleRootGeth rootEventRun.1
    rootEventRun.2 (by rfl) (by decide)

/-- Claim C1: for every CopyEvent generated by the calldatacopy handler and
every byte offset i below the length, the Read step of pair i is padded iff
src_addr + i is at or beyond src_addr_end; a padded Read carries value 0,
and during the event no Read operation is recorded at any padded address
(every recorded Read is a memory read strictly below src_addr_end); the
Write step of the pair is never padded. -/
theorem C1_padding_boundary (s : State) (g : GethExecStep) (s' : State)
    (ev : CopyEvent) (h : gen_copy_event s g = some (s', ev))
    (i : Nat) (hi : i < ev.length) :
    (∃ rs, ev.steps[2 * i]? = some rs ∧ rs.rw = RW.Read ∧
      (rs.is_pad = true ↔ ev.src_addr_end ≤ ev.src_addr + i) ∧
      (ev.src_addr_end ≤ ev.src_addr + i → rs.value = 0)) ∧
    (∃ ws, ev.steps[2 * i + 1]? = some ws ∧ ws.rw = RW.Write ∧
      ws.is_pad = false) ∧
    (∀ o ∈ s'.ops.drop s.ops.length, o.rw = RW.Read →
      ∃ mop, o.data = OpData.memory mop ∧ mop.address < ev.src_addr_end) := by
  obtain ⟨mo, dOff, len, step', steps, h0, h1, h2, hloop, hsa, hse, hda, hlen,
    hsteps, _⟩ := gen_copy_event_elim s g s' ev h
  rw [hlen] at hi
  obtain ⟨rs, ws, hg1, hg2, ha, hrw, htag, hcode, hpad, hvalue, wa, wrw, wtag,
    wcode, wpad, wval, hmem⟩ :=
    copyStepsLoop_pointwise _ _ _ _ _ _ _ _ _ _ _ hloop i hi
  have hops := copyStepsLoop_ops _ _ _ _ _ _ _ _ _ _ _ hloop
  refine ⟨⟨{ rs with rwc_inc_left := s'.rwc - rs.rwc }, ?_, hrw, ?_, ?_⟩,
    ⟨{ ws with rwc_inc_left := s'.rwc - ws.rwc }, ?_, wrw, wpad⟩, ?_⟩
  · rw [hsteps, List.getElem?_map, hg1]
    rfl
  · rw [hsa, hse]
    simpa using hpad
  · intro hle
    rw [hsa, hse] at hle
    have : rs.value = 0 := by
      rw [hvalue]
      unfold padValue
      rw [if_neg (by omega)]
    simpa using this
  · rw [hsteps, List.getElem?_map, hg2]
    rfl
  · intro o ho hrd
    have hp : projOp o ∈ (s'.ops.drop s.ops.length).map projOp :=
      List.mem_map.mpr ⟨o, ho, rfl⟩
    rw [List.map_drop, hops] at hp
    have hslen : s.ops.length = (s.ops.map projOp).length := by
      rw [List.length_map]
    rw [hslen, List.drop_left] at hp
    obtain ⟨mop, hm, hlt⟩ :=
      loopOpsSpec_read_lt _ _ _ _ _ _ _ _ _ _ _ hp (by simpa [projOp] using hrd)
    refine ⟨mop, by simpa [projOp] using hm, ?_⟩
    rw [hse]
    exact hlt

/-- Claim C1 witness: applied at offset 2 (a padded offset) of the concrete
non-root run. -/
theorem C1_padding_boundary_witness :
    (∃ rs, innerEventRun.2.steps[2 * 2]? = some rs ∧ rs.rw = RW.Read ∧
      (rs.is_pad = true ↔ innerEventRun.2.src_addr_end ≤
        innerEventRun.2.src_addr + 2) ∧
      (innerEventRun.2.src_addr_end ≤ innerEventRun.2.src_addr + 2 →
        rs.value = 0)) ∧
    (∃ ws, innerEventRun.2.steps[2 * 2 + 1]? = some ws ∧ ws.rw = RW.Write ∧
      ws.is_pad = false) ∧
    (∀ o ∈ innerEventRun.1.ops.drop exampleInnerState.ops.length,
      o.rw = RW.Read →
      ∃ mop, o.data = OpData.memory mop ∧
        mop.address < innerEventRun.2.src_addr_end) :=
  C1_padding_boundary exampleInnerState exampleInnerGeth innerEventRun.1
    innerEventRun.2 (by rfl) 2 (by decide)

/-- Claim C2: for every non-padded step pair of a calldatacopy CopyEvent,
the Read and the Write step carry the same value, equal to the call-data
byte at index src_addr + i - call_data_offset, and after the handler
completes the current frame's memory byte at dst_addr + i equals that
value. -/
theorem C2_value_agreement (s : State) (g : GethExecStep) (s' : State)
    (out : List ExecStep)
    (h : Calldatacopy.gen_associated_ops s [g] = some (s', out))
    (ev : CopyEvent) (hevlast : s'.copy_events.getLast? = some ev)
    (i : Nat) (hi : i < ev.length)
    (hnp : ev.src_addr + i < ev.src_addr_end) :
    ∃ rs ws, ev.steps[2 * i]? = some rs ∧ ev.steps[2 * i + 1]? = some ws ∧
      rs.value = ws.value ∧
      ws.value = s.call_ctx.call_data.getD
        (ev.src_addr + i - s.call.call_data_offset) 0 ∧
      s'.call_ctx.memory.getD (ev.dst_addr + i) 0 = ws.value := by
  obtain ⟨s1, es, mo, dOff, len, s3, ev0, hstep, h0, h1, h2, hev, hpush, hout⟩ :=
    gen_associated_ops_elim s g s' out h
  obtain ⟨_, _, _, _, _, _, _, _, hcall, hcc, _, _, _⟩ :=
    gen_calldatacopy_step_spec s g s1 es hstep
  obtain ⟨mo2, dOff2, len2, step', steps, h02, h12, h22, hloop, hsa, hse, hda,
    hlen, hsteps, _⟩ := gen_copy_event_elim _ g s3 ev0 hev
  have hevid : ev = ev0 := by
    rw [hpush] at hevlast
    rw [push_copy] at hevlast
    simp only [List.getLast?_concat] at hevlast
    exact Option.some.inj hevlast.symm
  subst hevid
  have hs2call :
      ({ s1 with call_ctx := { s1.call_ctx with
        memory := reconstructMemory s1.call_ctx.memory s1.call_ctx.call_data
          mo dOff len } } : State).call = s.call := hcall
  have hs2cd :
      ({ s1 with call_ctx := { s1.call_ctx with
        memory := reconstructMemory s1.call_ctx.memory s1.call_ctx.call_data
          mo dOff len } } : State).call_ctx.call_data = s.call_ctx.call_data := by
    show s1.call_ctx.call_data = s.call_ctx.call_data
    rw [hcc]
  rw [hlen] at hi
  obtain ⟨rs, ws, hg1, hg2, ha, hrw, htag, hcode, hpad, hvalue, wa, wrw, wtag,
    wcode, wpad, wval, hmem⟩ :=
    copyStepsLoop_pointwise _ _ _ _ _ _ _ _ _ _ _ hloop i hi
  rw [hs2call, hs2cd] at hvalue
  rw [hs2call] at hsa hse
  simp only [Nat.zero_add] at hvalue hmem
  refine ⟨{ rs with rwc_inc_left := s'.rwc - rs.rwc },
    { ws with rwc_inc_left := s'.rwc - ws.rwc }, ?_, ?_, ?_, ?_, ?_⟩
  · rw [hsteps, List.getElem?_map, hg1]
    have : s3.rwc = s'.rwc := by rw [hpush]; rfl
    rw [this]
    rfl
  · rw [hsteps, List.getElem?_map, hg2]
    have : s3.rwc = s'.rwc := by rw [hpush]; rfl
    rw [this]
    rfl
  · show rs.value = ws.value
    exact wval.symm
  · show ws.value = _
    rw [wval, hvalue]
    unfold padValue
    rw [if_pos (by rw [hsa] at hnp; rw [hse] at hnp; exact hnp)]
    rw [hsa]
  · show s'.call_ctx.memory.getD (ev.dst_addr + i) 0 = ws.value
    have hsm : s'.call_ctx.memory = s3.call_ctx.memory := by rw [hpush]; rfl
    rw [hsm, hda]
    exact hmem

/-- Claim C2 witness: applied at offset 0 (a non-padded offset) of the
concrete non-root run. -/
theorem C2_value_agreement_witness :
    ∃ rs ws, innerOpsRun.1.copy_events.getLastD defaultCopyEvent |>.steps[2 * 0]?
        = some rs ∧
      (innerOpsRun.1.copy_events.getLastD defaultCopyEvent).steps[2 * 0 + 1]?
        = some ws ∧
      rs.value = ws.value ∧
      ws.value = exampleInnerState.call_ctx.call_data.getD
        ((innerOpsRun.1.copy_events.getLastD defaultCopyEvent).src_addr + 0 -
          exampleInnerState.call.call_data_offset) 0 ∧
      innerOpsRun.1.call_ctx.memory.getD
        ((innerOpsRun.1.copy_events.getLastD defaultCopyEvent).dst_addr + 0) 0
        = ws.value :=
  C2_value_agreement exampleInnerState exampleInnerGeth innerOpsRun.1
    innerOpsRun.2 (by rfl)
    (innerOpsRun.1.copy_events.getLastD defaultCopyEvent) (by decide)
    0 (by decide) (by decide)

/-- Decomposition of the operations one full handler run appends to the
log: the returned step's trace (three stack reads then the call-context
reads) followed by the copy loop's memory-operation trace, all expressed
over the pre-state. -/
theorem handler_ops_eq (s : State) (g : GethExecStep) (s' : State)
    (out : List ExecStep)
    (h : Calldatacopy.gen_associated_ops s [g] = some (s', out)) :
    ∃ es mo dOff len,
      out = [es] ∧
      g.nth_last 0 = some mo ∧ g.nth_last 1 = some dOff ∧
      g.nth_last 2 = some len ∧
      es.bus_mapping_instance.map projOp = stackCcSpec s g mo dOff len ∧
      s'.ops.map projOp =
        s.ops.map projOp ++ es.bus_mapping_instance.map projOp ++
          loopOpsSpec s.call_ctx.call_data s.call.call_data_offset
            s.call.caller_id s.call.call_id
            (s.call.call_data_offset + dOff) mo
            (s.call.call_data_offset + s.call.call_data_length)
            s.call.is_root 0 len := by
  obtain ⟨s1, es, mo, dOff, len, s3, ev0, hstep, h0, h1, h2, hev, hpush, hout⟩ :=
    gen_associated_ops_elim s g s' out h
  obtain ⟨mo1, dOff1, len1, h01, h11, h21, hbus, hops1, hcall, hcc, _, _, _⟩ :=
    gen_calldatacopy_step_spec s g s1 es hstep
  obtain ⟨mo2, dOff2, len2, step', steps, h02, h12, h22, hloop, _⟩ :=
    gen_copy_event_elim _ g s3 ev0 hev
  obtain rfl : mo = mo2 := by
    rw [h0] at h02; exact Option.some.inj h02
  obtain rfl : dOff = dOff2 := by
    rw [h1] at h12; exact Option.some.inj h12
  obtain rfl : len = len2 := by
    rw [h2] at h22; exact Option.some.inj h22
  obtain rfl : mo = mo1 := by
    rw [h0] at h01; exact Option.some.inj h01
  obtain rfl : dOff = dOff1 := by
    rw [h1] at h11; exact Option.some.inj h11
  obtain rfl : len = len1 := by
    rw [h2] at h21; exact Option.some.inj h21
  have hloopops := copyStepsLoop_ops _ _ _ _ _ _ _ _ _ _ _ hloop
  dsimp only at hloopops
  rw [hcall, hcc, hops1] at hloopops
  have hsops : s'.ops = s3.ops := by rw [hpush]; rfl
  refine ⟨es, mo, dOff, len, hout, h0, h1, h2, hbus, ?_⟩
  rw [hsops, hloopops, List.map_append, List.append_assoc]

/-- Claim C6 counterexample: the claim asserts every operation recorded
while the handler processes one instruction is appended to the reference
list of the ExecStep the handler returns.  In the concrete root run the
handler records 6 operations (3 stack reads, 2 call-context reads, 1
memory Write of the copy), but the returned ExecStep's reference list holds
only the first 5: the copy's memory Write (the last recorded operation) is
appended to a second, internal ExecStep that is discarded. -/
theorem C6_returned_step_counterexample :
    rootOpsRun.1.ops.getLastD defaultRecordedOp ∉
      (rootOpsRun.2.headD defaultExecStep).bus_mapping_instance ∧
    rootOpsRun.1.ops.length = 6 ∧
    (rootOpsRun.2.headD defaultExecStep).bus_mapping_instance.length = 5 := by
  decide

/-- Claim C6 as amended: the three stack reads and the call-context reads
are appended, in call order, to the reference list of the ExecStep the
handler returns (its trace is exactly `stackCcSpec`); the per-byte memory
Read/Write operations of the copy are appended, in call order, to the
operation log only — after the run the log is exactly the old log, then the
returned step's reference list, then exactly the copy loop's per-byte
operation trace `loopOpsSpec` (for each byte in order: the caller-frame
Read when non-root and non-padded, then the current-frame Write), every
entry of which is a memory operation. -/
theorem C6_ops_distribution (s : State) (g : GethExecStep) (s' : State)
    (out : List ExecStep)
    (h : Calldatacopy.gen_associated_ops s [g] = some (s', out)) :
    ∃ es mo dOff len, out = [es] ∧
      g.nth_last 0 = some mo ∧ g.nth_last 1 = some dOff ∧
      g.nth_last 2 = some len ∧
      es.bus_mapping_instance.map projOp = stackCcSpec s g mo dOff len ∧
      s'.ops.map projOp =
        s.ops.map projOp ++ es.bus_mapping_instance.map projOp ++
          loopOpsSpec s.call_ctx.call_data s.call.call_data_offset
            s.call.caller_id s.call.call_id
            (s.call.call_data_offset + dOff) mo
            (s.call.call_data_offset + s.call.call_data_length)
            s.call.is_root 0 len ∧
      (∀ p ∈ loopOpsSpec s.call_ctx.call_data s.call.call_data_offset
          s.call.caller_id s.call.call_id
          (s.call.call_data_offset + dOff) mo
          (s.call.call_data_offset + s.call.call_data_length)
          s.call.is_root 0 len,
        ∃ mop, p.2 = OpData.memory mop) := by
  obtain ⟨es, mo, dOff, len, hout, h0, h1, h2, hbus, hops⟩ :=
    handler_ops_eq s g s' out h
  refine ⟨es, mo, dOff, len, hout, h0, h1, h2, hbus, hops, ?_⟩
  intro p hp
  exact loopOpsSpec_mem_memory _ _ _ _ _ _ _ _ _ _ p hp

/-- Claim C6 amended witness: the concrete root run. -/
theorem C6_ops_distribution_witness :
    ∃ es mo dOff len, rootOpsRun.2 = [es] ∧
      exampleRootGeth.nth_last 0 = some mo ∧
      exampleRootGeth.nth_last 1 = some dOff ∧
      exampleRootGeth.nth_last 2 = some len ∧
      es.bus_mapping_instance.map projOp =
        stackCcSpec exampleRootState exampleRootGeth mo dOff len ∧
      rootOpsRun.1.ops.map projOp =
        exampleRootState.ops.map projOp ++
          es.bus_mapping_instance.map projOp ++
          loopOpsSpec exampleRootState.call_ctx.call_data
            exampleRootState.call.call_data_offset
            exampleRootState.call.caller_id
            exampleRootState.call.call_id
            (exampleRootState.call.call_data_offset + dOff) mo
            (exampleRootState.call.call_data_offset +
              exampleRootState.call.call_data_length)
            exampleRootState.call.is_root 0 len ∧
      (∀ p ∈ loopOpsSpec exampleRootState.call_ctx.call_data
          exampleRootState.call.call_data_offset
          exampleRootState.call.caller_id
          exampleRootState.call.call_id
          (exampleRootState.call.call_data_offset + dOff) mo
          (exampleRootState.call.call_data_offset +
            exampleRootState.call.call_data_length)
          exampleRootState.call.is_root 0 len,
        ∃ mop, p.2 = OpData.memory mop) :=
  C6_ops_distribution exampleRootState exampleRootGeth rootOpsRun.1
    rootOpsRun.2 (by rfl)

/-- Claim C3: while processing one instruction, a root-call handler records
exactly two call-context Reads, TxId then CallDataLength; a non-root one
records exactly three, CallerId, CallDataLength then CallDataOffset — never
both sets, never neither. -/
theorem C3_call_context_reads (s : State) (g : GethExecStep) (s' : State)
    (out : List ExecStep)
    (h : Calldatacopy.gen_associated_ops s [g] = some (s', out)) :
    ((s'.ops.map projOp).drop (s.ops.map projOp).length).filter
        isCallContextEntry =
      (if s.call.is_root then
        [(RW.Read, OpData.callContext
           ⟨s.call.call_id, CallContextField.TxId, s.tx_id⟩),
         (RW.Read, OpData.callContext
           ⟨s.call.call_id, CallContextField.CallDataLength,
             s.call.call_data_length⟩)]
      else
        [(RW.Read, OpData.callContext
           ⟨s.call.call_id, CallContextField.CallerId, s.call.caller_id⟩),
         (RW.Read, OpData.callContext
           ⟨s.call.call_id, CallContextField.CallDataLength,
             s.call.call_data_length⟩),
         (RW.Read, OpData.callContext
           ⟨s.call.call_id, CallContextField.CallDataOffset,
             s.call.call_data_offset⟩)]) := by
  obtain ⟨es, mo, dOff, len, hout, h0, h1, h2, hbus, hops⟩ :=
    handler_ops_eq s g s' out h
  rw [hops, List.append_assoc, List.drop_left, List.filter_append, hbus,
    stackCcSpec_filter_cc,
    filter_cc_of_all_memory _ (fun p hp =>
      loopOpsSpec_mem_memory _ _ _ _ _ _ _ _ _ _ p hp),
    List.append_nil]

/-- Claim C3 witness: the concrete non-root run records exactly the three
non-root call-context reads. -/
theorem C3_call_context_reads_witness :
    ((innerOpsRun.1.ops.map projOp).drop
        (exampleInnerState.ops.map projOp).length).filter isCallContextEntry =
      (if exampleInnerState.call.is_root then
        [(RW.Read, OpData.callContext
           ⟨exampleInnerState.call.call_id, CallContextField.TxId,
             exampleInnerState.tx_id⟩),
         (RW.Read, OpData.callContext
           ⟨exampleInnerState.call.call_id, CallContextField.CallDataLength,
             exampleInnerState.call.call_data_length⟩)]
      else
        [(RW.Read, OpData.callContext
           ⟨exampleInnerState.call.call_id, CallContextField.CallerId,
             exampleInnerState.call.caller_id⟩),
         (RW.Read, OpData.callContext
           ⟨exampleInnerState.call.call_id, CallContextField.CallDataLength,
             exampleInnerState.call.call_data_length⟩),
         (RW.Read, OpData.callContext
           ⟨exampleInnerState.call.call_id, CallContextField.CallDataOffset,
             exampleInnerState.call.call_data_offset⟩)]) :=
  C3_call_context_reads exampleInnerState exampleInnerGeth innerOpsRun.1
    innerOpsRun.2 (by rfl)

/-- Claim C8: in a root call the handler emits no Memory Read operation for
any source byte; in a non-root call, Memory Read operations — recorded
against the caller's frame at the source address — are emitted exactly for
the non-padded source bytes, in order. -/
theorem C8_memory_read_ops (s : State) (g : GethExecStep) (s' : State)
    (out : List ExecStep)
    (h : Calldatacopy.gen_associated_ops s [g] = some (s', out))
    (ev : CopyEvent) (hevlast : s'.copy_events.getLast? = some ev) :
    ((s'.ops.map projOp).drop (s.ops.map projOp).length).filter
        isMemoryReadEntry =
      (if s.call.is_root then []
       else
        ((List.range ev.length).filter
          (fun j => decide (ev.src_addr + j < ev.src_addr_end))).map
          (fun j => (RW.Read, OpData.memory ⟨s.call.caller_id, ev.src_addr + j,
            s.call_ctx.call_data.getD
              (ev.src_addr + j - s.call.call_data_offset) 0⟩))) := by
  obtain ⟨es, mo, dOff, len, hout, h0, h1, h2, hbus, hops⟩ :=
    handler_ops_eq s g s' out h
  obtain ⟨s1, es', mo', dOff', len', s3, ev0, hstep, h0', h1', h2', hev, hpush,
    hout'⟩ := gen_associated_ops_elim s g s' out h
  obtain ⟨_, _, _, _, _, _, _, _, hcall, hcc, _, _, _⟩ :=
    gen_calldatacopy_step_spec s g s1 es' hstep
  obtain ⟨mo2, dOff2, len2, step', steps, h02, h12, h22, hloop, hsa, hse, hda,
    hlen, hsteps, _⟩ := gen_copy_event_elim _ g s3 ev0 hev
  obtain rfl : mo = mo2 := by
    rw [h0] at h02; exact Option.some.inj h02
  obtain rfl : dOff = dOff2 := by
    rw [h1] at h12; exact Option.some.inj h12
  obtain rfl : len = len2 := by
    rw [h2] at h22; exact Option.some.inj h22
  have hevid : ev = ev0 := by
    rw [hpush] at hevlast
    rw [push_copy] at hevlast
    simp only [List.getLast?_concat] at hevlast
    exact Option.some.inj hevlast.symm
  subst hevid
  dsimp only at hsa hse
  rw [hcall] at hsa hse
  rw [hops, List.append_assoc, List.drop_left, List.filter_append, hbus,
    stackCcSpec_filter_memread, List.nil_append]
  by_cases hroot : s.call.is_root = true
  · rw [if_pos hroot, hroot]
    exact loopOpsSpec_filter_read_root _ _ _ _ _ _ _ _ _
  · rw [if_neg hroot]
    have hroot2 : s.call.is_root = false := by
      simpa using hroot
    rw [hroot2, loopOpsSpec_filter_read, hlen, hsa, hse,
      List.range_eq_range']

/-- Claim C8 witness: the concrete non-root run, whose event has two
non-padded and two padded source bytes. -/
theorem C8_memory_read_ops_witness :
    ((innerOpsRun.1.ops.map projOp).drop
        (exampleInnerState.ops.map projOp).length).filter isMemoryReadEntry =
      (if exampleInnerState.call.is_root then []
       else
        ((List.range
            (innerOpsRun.1.copy_events.getLastD defaultCopyEvent).length).filter
          (fun j => decide
            ((innerOpsRun.1.copy_events.getLastD defaultCopyEvent).src_addr + j <
              (innerOpsRun.1.copy_events.getLastD defaultCopyEvent).src_addr_end))).map
          (fun j => (RW.Read, OpData.memory
            ⟨exampleInnerState.call.caller_id,
             (innerOpsRun.1.copy_events.getLastD defaultCopyEvent).src_addr + j,
             exampleInnerState.call_ctx.call_data.getD
               ((innerOpsRun.1.copy_events.getLastD defaultCopyEvent).src_addr + j -
                 exampleInnerState.call.call_data_offset) 0⟩))) :=
  C8_memory_read_ops exampleInnerState exampleInnerGeth innerOpsRun.1
    innerOpsRun.2 (by rfl)
    (innerOpsRun.1.copy_events.getLastD defaultCopyEvent) (by decide)

/-- Claim C9: when data_offset + length exceeds the call-data length the
handler still completes: every step whose source address reaches
src_addr_end is padded with value 0, and a current-frame Memory Write
operation is still recorded for every destination byte of the full length
(with byte 0 on the padded range, since the padded value is 0 there). -/
theorem C9_out_of_range_safety (s : State) (g : GethExecStep)
    (mo dOff len : Nat)
    (h0 : g.nth_last 0 = some mo) (h1 : g.nth_last 1 = some dOff)
    (h2 : g.nth_last 2 = some len)
    (hcd : s.call_ctx.call_data.length = s.call.call_data_length)
    (hover : s.call.call_data_length < dOff + len) :
    ∃ s' out ev,
      Calldatacopy.gen_associated_ops s [g] = some (s', out) ∧
      s'.copy_events.getLast? = some ev ∧
      ev.length = len ∧
      (∀ i, i < len → ev.src_addr_end ≤ ev.src_addr + i →
        ∃ rs, ev.steps[2 * i]? = some rs ∧ rs.is_pad = true ∧ rs.value = 0) ∧
      (∀ i, i < len →
        (RW.Write, OpData.memory ⟨s.call.call_id, mo + i,
          padValue s.call_ctx.call_data s.call.call_data_offset
            (s.call.call_data_offset + s.call.call_data_length)
            (s.call.call_data_offset + dOff + i)⟩)
          ∈ (s'.ops.map projOp).drop (s.ops.map projOp).length) ∧
      (∀ a, s.call.call_data_offset + s.call.call_data_length ≤ a →
        padValue s.call_ctx.call_data s.call.call_data_offset
          (s.call.call_data_offset + s.call.call_data_length) a = 0) := by
  obtain ⟨⟨s', out⟩, hsome⟩ :=
    gen_associated_ops_total s g mo dOff len h0 h1 h2 hcd
  obtain ⟨es, mo1, dOff1, len1, hout, h01, h11, h21, hbus, hops⟩ :=
    handler_ops_eq s g s' out hsome
  obtain rfl : mo = mo1 := by
    rw [h0] at h01; exact Option.some.inj h01
  obtain rfl : dOff = dOff1 := by
    rw [h1] at h11; exact Option.some.inj h11
  obtain rfl : len = len1 := by
    rw [h2] at h21; exact Option.some.inj h21
  obtain ⟨s1, es', mo', dOff', len', s3, ev0, hstep, h0', h1', h2', hev, hpush,
    hout'⟩ := gen_associated_ops_elim s g s' out hsome
  obtain ⟨_, _, _, _, _, _, _, _, hcall, hcc, _, _, _⟩ :=
    gen_calldatacopy_step_spec s g s1 es' hstep
  obtain ⟨mo2, dOff2, len2, step', steps, h02, h12, h22, hloop, hsa, hse, hda,
    hlen, hsteps, _⟩ := gen_copy_event_elim _ g s3 ev0 hev
  obtain rfl : mo = mo2 := by
    rw [h0] at h02; exact Option.some.inj h02
  obtain rfl : dOff = dOff2 := by
    rw [h1] at h12; exact Option.some.inj h12
  obtain rfl : len = len2 := by
    rw [h2] at h22; exact Option.some.inj h22
  dsimp only at hsa hse
  rw [hcall] at hsa hse
  refine ⟨s', out, ev0, hsome, ?_, hlen, ?_, ?_, ?_⟩
  · rw [hpush, push_copy]
    simp only [List.getLast?_concat]
  · intro i hi hpadded
    rw [hlen] at *
    obtain ⟨rs, ws, hg1, hg2, ha, hrw, htag, hcode, hpad, hvalue, wa, wrw, wtag,
      wcode, wpad, wval, hmem⟩ :=
      copyStepsLoop_pointwise _ _ _ _ _ _ _ _ _ _ _ hloop i hi
    dsimp only at hpad hvalue
    rw [hcall] at hpad hvalue
    rw [show ({ s1 with call_ctx := { s1.call_ctx with
      memory := reconstructMemory s1.call_ctx.memory s1.call_ctx.call_data
        mo dOff len } } : State).call_ctx.call_data = s.call_ctx.call_data
      from by
        show s1.call_ctx.call_data = s.call_ctx.call_data
        rw [hcc]] at hvalue
    simp only [Nat.zero_add] at hpad hvalue
    rw [hsa, hse] at hpadded
    refine ⟨{ rs with rwc_inc_left := s3.rwc - rs.rwc }, ?_, ?_, ?_⟩
    · rw [hsteps, List.getElem?_map, hg1]
      rfl
    · show rs.is_pad = true
      exact hpad.mpr hpadded
    · show rs.value = 0
      rw [hvalue]
      unfold padValue
      rw [if_neg (by omega)]
  · intro i hi
    have hwmem := loopOpsSpec_write_mem s.call_ctx.call_data
      s.call.call_data_offset s.call.caller_id s.call.call_id
      (s.call.call_data_offset + dOff) mo
      (s.call.call_data_offset + s.call.call_data_length) s.call.is_root
      len 0 i hi
    simp only [Nat.zero_add] at hwmem
    rw [hops, List.append_assoc, List.drop_left]
    exact List.mem_append.mpr (Or.inr hwmem)
  · intro a hale
    unfold padValue
    rw [if_neg (by omega)]

/-- Claim C9 witness: the concrete non-root run, where data_offset (2) plus
length (4) exceeds the call-data length (4). -/
theorem C9_out_of_range_safety_witness :
    ∃ s' out ev,
      Calldatacopy.gen_associated_ops exampleInnerState [exampleInnerGeth] =
        some (s', out) ∧
      s'.copy_events.getLast? = some ev ∧
      ev.length = 4 ∧
      (∀ i, i < 4 → ev.src_addr_end ≤ ev.src_addr + i →
        ∃ rs, ev.steps[2 * i]? = some rs ∧ rs.is_pad = true ∧ rs.value = 0) ∧
      (∀ i, i < 4 →
        (RW.Write, OpData.memory ⟨exampleInnerState.call.call_id, 0 + i,
          padValue exampleInnerState.call_ctx.call_data
            exampleInnerState.call.call_data_offset
            (exampleInnerState.call.call_data_offset +
              exampleInnerState.call.call_data_length)
            (exampleInnerState.call.call_data_offset + 2 + i)⟩)
          ∈ (s'.ops.map projOp).drop
              (exampleInnerState.ops.map projOp).length) ∧
      (∀ a, exampleInnerState.call.call_data_offset +
          exampleInnerState.call.call_data_length ≤ a →
        padValue exampleInnerState.call_ctx.call_data
          exampleInnerState.call.call_data_offset
          (exampleInnerState.call.call_data_offset +
            exampleInnerState.call.call_data_length) a = 0) :=
  C9_out_of_range_safety exampleInnerState exampleInnerGeth 0 2 4
    (by rfl) (by rfl) (by rfl) (by decide) (by decide)

/-- Claim C10: a zero-length calldatacopy still appends a CopyEvent — with
an empty steps list, length 0, and src_addr, src_addr_end, ids and domain
tags populated as usual — while leaving the frame's memory entirely
unchanged; only the three stack reads and the call-context reads are
recorded, and no memory operation. -/
theorem C10_zero_length_copy (s : State) (g : GethExecStep) (s' : State)
    (out : List ExecStep)
    (h : Calldatacopy.gen_associated_ops s [g] = some (s', out))
    (hzero : g.nth_last 2 = some 0) :
    ∃ es ev mo dOff,
      out = [es] ∧
      g.nth_last 0 = some mo ∧ g.nth_last 1 = some dOff ∧
      s'.copy_events = s.copy_events ++ [ev] ∧
      ev.steps = [] ∧ ev.length = 0 ∧
      ev.src_addr = s.call.call_data_offset + dOff ∧
      ev.src_addr_end = s.call.call_data_offset + s.call.call_data_length ∧
      ev.dst_addr = mo ∧
      ev.src_type = (if s.call.is_root then CopyDataType.TxCalldata
        else CopyDataType.Memory) ∧
      ev.src_id = NumberOrHash.Number
        (if s.call.is_root then s.tx_id else s.call.caller_id) ∧
      ev.dst_type = CopyDataType.Memory ∧
      ev.dst_id = NumberOrHash.Number s.call.call_id ∧
      ev.log_id = none ∧
      ev.tx_id = s.tx_id ∧ ev.call_id = s.call.call_id ∧
      s'.call_ctx.memory = s.call_ctx.memory ∧
      s'.ops = s.ops ++ es.bus_mapping_instance ∧
      es.bus_mapping_instance.map projOp = stackCcSpec s g mo dOff 0 := by
  obtain ⟨s1, es, mo, dOff, len, s3, ev0, hstep, h0, h1, h2, hev, hpush, hout⟩ :=
    gen_associated_ops_elim s g s' out h
  obtain rfl : (0 : Nat) = len := by
    rw [hzero] at h2; exact Option.some.inj h2
  obtain ⟨mo1, dOff1, len1, h01, h11, h21, hbus, hops1, hcall, hcc, htx, hcopy,
    _⟩ := gen_calldatacopy_step_spec s g s1 es hstep
  obtain rfl : mo = mo1 := by
    rw [h0] at h01; exact Option.some.inj h01
  obtain rfl : dOff = dOff1 := by
    rw [h1] at h11; exact Option.some.inj h11
  obtain rfl : (0 : Nat) = len1 := by
    rw [hzero] at h21; exact Option.some.inj h21
  obtain ⟨mo2, dOff2, len2, step', steps, h02, h12, h22, hloop, hsa, hse, hda,
    hlen, hsteps, hst, hsi, hdt, hdi, hli, hti, hci⟩ :=
    gen_copy_event_elim _ g s3 ev0 hev
  obtain rfl : mo = mo2 := by
    rw [h0] at h02; exact Option.some.inj h02
  obtain rfl : dOff = dOff2 := by
    rw [h1] at h12; exact Option.some.inj h12
  obtain rfl : (0 : Nat) = len2 := by
    rw [hzero] at h22; exact Option.some.inj h22
  rw [copyStepsLoop] at hloop
  rw [Option.some.injEq, Prod.mk.injEq, Prod.mk.injEq] at hloop
  obtain ⟨hs3, hstep', hsteps0⟩ := hloop
  dsimp only at hsa hse
  rw [hcall] at hsa hse
  have hs3call : s3.call = s.call := by
    rw [← hs3]
    exact hcall
  have hs3tx : s3.tx_id = s.tx_id := by
    rw [← hs3]
    exact htx
  have hs3copy : s3.copy_events = s.copy_events := by
    rw [← hs3]
    exact hcopy
  have hs3mem : s3.call_ctx.memory = s.call_ctx.memory := by
    rw [← hs3]
    show reconstructMemory s1.call_ctx.memory s1.call_ctx.call_data mo dOff 0
      = s.call_ctx.memory
    rw [reconstructMemory]
    simp [hcc]
  have hs3ops : s3.ops = s.ops ++ es.bus_mapping_instance := by
    rw [← hs3]
    exact hops1
  refine ⟨es, ev0, mo, dOff, hout, h0, h1, ?_, ?_, hlen, hsa, hse, hda,
    ?_, ?_, hdt, ?_, hli, ?_, ?_, ?_, ?_, hbus⟩
  · rw [hpush, push_copy, hs3copy]
  · rw [hsteps, ← hsteps0]
    rfl
  · rw [hst, hs3call]
  · rw [hsi, hs3call, hs3tx]
  · rw [hdi, hs3call]
  · rw [hti, hs3tx]
  · rw [hci, hs3call]
  · rw [hpush]
    show s3.call_ctx.memory = s.call_ctx.memory
    exact hs3mem
  · rw [hpush]
    show s3.ops = s.ops ++ es.bus_mapping_instance
    exact hs3ops

/-- Claim C10 witness: the concrete zero-length run on the root state. -/
theorem C10_zero_length_copy_witness :
    ∃ es ev mo dOff,
      zeroOpsRun.2 = [es] ∧
      exampleZeroGeth.nth_last 0 = some mo ∧
      exampleZeroGeth.nth_last 1 = some dOff ∧
      zeroOpsRun.1.copy_events = exampleRootState.copy_events ++ [ev] ∧
      ev.steps = [] ∧ ev.length = 0 ∧
      ev.src_addr = exampleRootState.call.call_data_offset + dOff ∧
      ev.src_addr_end = exampleRootState.call.call_data_offset +
        exampleRootState.call.call_data_length ∧
      ev.dst_addr = mo ∧
      ev.src_type = (if exampleRootState.call.is_root then
        CopyDataType.TxCalldata else CopyDataType.Memory) ∧
      ev.src_id = NumberOrHash.Number
        (if exampleRootState.call.is_root then exampleRootState.tx_id
         else exampleRootState.call.caller_id) ∧
      ev.dst_type = CopyDataType.Memory ∧
      ev.dst_id = NumberOrHash.Number exampleRootState.call.call_id ∧
      ev.log_id = none ∧
      ev.tx_id = exampleRootState.tx_id ∧
      ev.call_id = exampleRootState.call.call_id ∧
      zeroOpsRun.1.call_ctx.memory = exampleRootState.call_ctx.memory ∧
      zeroOpsRun.1.ops = exampleRootState.ops ++ es.bus_mapping_instance ∧
      es.bus_mapping_instance.map projOp =
        stackCcSpec exampleRootState exampleZeroGeth mo dOff 0 :=
  C10_zero_length_copy exampleRootState exampleZeroGeth zeroOpsRun.1
    zeroOpsRun.2 (by rfl) (by rfl)

end ClaimTheorems

end BusMapping
